import Mathlib

/-!
# Trade chaincode (`chaincode_ex2.go`): embedding and specification proofs

The chaincode keeps trade records in a key/value ledger and maintains an index
value under the key `_tradeindex`.  This file embeds the four operations of the
source (`init`, `Query`, `init_trade`, `set_user`) as Lean functions over an
explicit ledger state, together with the parts of the Go runtime they call
(`strconv.Atoi`, `strconv.Itoa`, `strings.ToLower`, `encoding/json`), and proves
properties of them.

Conventions of the embedding:

* a Go `string` / `[]byte` is a Lean `String` (valid UTF-8 text);
* a Go `int` / `int64` is a Lean `Int`; the 64-bit range is enforced where the
  Go code can observe it (`strconv.Atoi`, `strconv.ParseInt`);
* a Go `([]byte, error)` result is `Except String (Option String)`: the error
  message, or the payload (`none` for a nil payload);
* the ledger behind `shim.ChaincodeStub` is explicit state, returned by every
  operation next to its result.
-/

namespace Marbles

deriving instance DecidableEq for Except

/-! ## `strconv` -/

/-- Value of a decimal digit, `none` for any other character. -/
def digitVal (c : Char) : Option Nat :=
  if 48 ≤ c.toNat ∧ c.toNat ≤ 57 then some (c.toNat - 48) else none

/-- Left-to-right accumulation of decimal digits; `none` as soon as a
character is not a digit. -/
def parseDigitsFrom : Nat → List Char → Option Nat
  | acc, [] => some acc
  | acc, c :: cs =>
    match digitVal c with
    | none => none
    | some d => parseDigitsFrom (acc * 10 + d) cs

/-- A non-empty run of decimal digits read as a natural number. -/
def parseUint (cs : List Char) : Option Nat :=
  match cs with
  | [] => none
  | _ :: _ => parseDigitsFrom 0 cs

/-- Go `strconv.ParseInt(s, 10, 64)` on the characters of `s`: an optional
sign, then one or more decimal digits, the value within the int64 range. -/
def ParseInt (cs : List Char) : Option Int :=
  match cs with
  | [] => none
  | c :: rest =>
    if c = '-' then
      match parseUint rest with
      | none => none
      | some n => if n ≤ 2 ^ 63 then some (-(n : Int)) else none
    else
      match parseUint (if c = '+' then rest else c :: rest) with
      | none => none
      | some n => if n < 2 ^ 63 then some (n : Int) else none

/-- Go `strconv.Atoi` (64-bit `int`): `none` stands for a non-nil error. -/
def Atoi (s : String) : Option Int := ParseInt s.data

/-- Character of a decimal digit `d < 10`. -/
def digitChar (d : Nat) : Char := Char.ofNat (48 + d)

/-- Decimal digits of a natural number, most significant first; the first
argument bounds the number of digits. -/
def natDigits : Nat → Nat → List Char
  | 0, _ => []
  | fuel + 1, n =>
    if n < 10 then [digitChar n] else natDigits fuel (n / 10) ++ [digitChar (n % 10)]

/-- Decimal rendering of a natural number. -/
def formatNat (n : Nat) : List Char := natDigits (n + 1) n

/-- Characters of Go `strconv.Itoa` / `strconv.FormatInt(i, 10)`. -/
def formatInt : Int → List Char
  | Int.ofNat n => formatNat n
  | Int.negSucc n => '-' :: formatNat (n + 1)

/-- Go `strconv.Itoa`. -/
def Itoa (i : Int) : String := String.mk (formatInt i)

/-! ## `strings.ToLower` and the clock -/

/-- What a call reads from the Go runtime besides the ledger: the wall clock
(`time.Now().UnixNano()`) and the Unicode lower-case table that
`unicode.ToLower` consults for runes above ASCII. -/
structure Runtime where
  unixNano : Int
  unicodeLower : Char → Char

/-- Go `unicode.ToLower`: ASCII letters are mapped directly, other runes go
through the Unicode case table. -/
def toLowerRune (rt : Runtime) (c : Char) : Char :=
  if c.toNat < 128 then c.toLower else rt.unicodeLower c

/-- Go `strings.ToLower`. -/
def ToLower (rt : Runtime) (s : String) : String :=
  String.mk (s.data.map (toLowerRune rt))

/-- Source `makeTimestamp`: nanoseconds since the epoch divided (Go integer
division, truncating) by the number of nanoseconds in a millisecond. -/
def makeTimestamp (rt : Runtime) : Int := Int.tdiv rt.unixNano (1000000 / 1)

/-! ## `encoding/json`: reading

`json.Unmarshal` first checks that the whole input is one well-formed JSON
text and only then stores values into the target; with a syntax error the
target is left untouched.  The reader below produces the syntax tree of a
well-formed text (`none` for a syntax error); the stores into the two target
types used by the chaincode follow. -/

/-- Syntax tree of a JSON text.  String literals are held unquoted, number
literals as written. -/
inductive JSON where
  | null : JSON
  | bool : Bool → JSON
  | num : List Char → JSON
  | str : List Char → JSON
  | arr : List JSON → JSON
  | obj : List (List Char × JSON) → JSON

/-- JSON insignificant whitespace. -/
def isSpace (c : Char) : Bool :=
  c = ' ' ∨ c = '\t' ∨ c = '\r' ∨ c = '\n'

/-- Drops leading whitespace. -/
def skipSpace : List Char → List Char
  | [] => []
  | c :: cs => if isSpace c then skipSpace cs else c :: cs

/-- Value of a hexadecimal digit of either case. -/
def hexVal (c : Char) : Option Nat :=
  if 48 ≤ c.toNat ∧ c.toNat ≤ 57 then some (c.toNat - 48)
  else if 97 ≤ c.toNat ∧ c.toNat ≤ 102 then some (c.toNat - 87)
  else if 65 ≤ c.toNat ∧ c.toNat ≤ 70 then some (c.toNat - 55)
  else none

/-- The 16-bit value of four hexadecimal digits (`getu4` without the leading
backslash and `u`). -/
def hex4 (a b c d : Char) : Option Nat :=
  match hexVal a, hexVal b, hexVal c, hexVal d with
  | some x, some y, some z, some w => some (((x * 16 + y) * 16 + z) * 16 + w)
  | _, _, _, _ => none

/-- The rune U+FFFD that replaces what cannot be decoded. -/
def replacementChar : Char := Char.ofNat 0xFFFD

/-- Rune written for a `\u` escape with value `r` that is not part of a valid
surrogate pair: the replacement rune for a lone surrogate half. -/
def runeOfEscape (r : Nat) : Char :=
  if 0xD800 ≤ r ∧ r < 0xE000 then replacementChar else Char.ofNat r

/-- Rune of a valid UTF-16 surrogate pair (`utf16.DecodeRune`). -/
def runeOfPair (hi lo : Nat) : Char :=
  Char.ofNat ((hi - 0xD800) * 1024 + (lo - 0xDC00) + 0x10000)

/-- Character denoted by a one-letter escape, `none` when the letter is not
one the scanner accepts. -/
def simpleEscape (e : Char) : Option Char :=
  if e = '"' then some '"'
  else if e = '\\' then some '\\'
  else if e = '/' then some '/'
  else if e = 'b' then some (Char.ofNat 8)
  else if e = 'f' then some (Char.ofNat 12)
  else if e = 'n' then some '\n'
  else if e = 'r' then some '\r'
  else if e = 't' then some '\t'
  else none

/-- Adds a decoded rune in front of what the rest of the literal decodes to. -/
def consRune (c : Char) (r : Option (List Char × List Char)) : Option (List Char × List Char) :=
  match r with
  | none => none
  | some (s, rest) => some (c :: s, rest)

/-- The value of a low surrogate half written as a `\u` escape at the head of
the input, if there is one. -/
def lowSurrogate (cs : List Char) : Option Nat :=
  match cs with
  | b :: u :: a1 :: b1 :: x1 :: d1 :: _ =>
    if b = '\\' ∧ u = 'u' then
      match hex4 a1 b1 x1 d1 with
      | some r1 => if 0xDC00 ≤ r1 ∧ r1 < 0xE000 then some r1 else none
      | none => none
    else none
  | _ => none

/-- The escape whose backslash has just been read: the rune it denotes and
the number of characters it takes after the backslash.  A high surrogate half
followed by the escape of a low half is one rune; a surrogate half on its own
is the replacement rune. -/
def scanEscape (cs : List Char) : Option (Char × Nat) :=
  match cs with
  | [] => none
  | e :: cs1 =>
    if e = 'u' then
      match cs1 with
      | a :: b :: x :: d :: cs2 =>
        match hex4 a b x d with
        | none => none
        | some r =>
          if 0xD800 ≤ r ∧ r < 0xDC00 then
            match lowSurrogate cs2 with
            | some r1 => some (runeOfPair r r1, 11)
            | none => some (replacementChar, 5)
          else some (runeOfEscape r, 5)
      | _ => none
    else
      match simpleEscape e with
      | none => none
      | some d => some (d, 1)

/-- A string literal after its opening quote: the unquoted contents and the
input after the closing quote.  Fails on a raw control character, an unknown
escape, or a missing closing quote, as the scanner does; decodes escapes as
`unquote` does.  The first argument counts the characters of an escape that
has been decoded and is still to be passed over. -/
def scanStringFrom : Nat → List Char → Option (List Char × List Char)
  | _, [] => none
  | skip + 1, _ :: cs => scanStringFrom skip cs
  | 0, c :: cs =>
    if c = '"' then some ([], cs)
    else if c = '\\' then
      match scanEscape cs with
      | none => none
      | some (r, n) => consRune r (scanStringFrom n cs)
    else if c.toNat < 32 then none
    else consRune c (scanStringFrom 0 cs)

/-- A string literal after its opening quote. -/
def scanString (cs : List Char) : Option (List Char × List Char) := scanStringFrom 0 cs

/-- Splits off the leading run of decimal digits. -/
def spanDigits : List Char → List Char × List Char
  | [] => ([], [])
  | c :: cs =>
    if (digitVal c).isSome then ((spanDigits cs).1.cons c, (spanDigits cs).2) else ([], c :: cs)

/-- Optional fraction part of a number literal: a dot and one or more digits. -/
def scanFrac (cs : List Char) : Option (List Char × List Char) :=
  match cs with
  | c :: rest =>
    if c = '.' then
      match spanDigits rest with
      | ([], _) => none
      | (ds, rest1) => some (c :: ds, rest1)
    else some ([], cs)
  | [] => some ([], cs)

/-- Optional exponent part of a number literal: `e` or `E`, an optional sign,
one or more digits. -/
def scanExp (cs : List Char) : Option (List Char × List Char) :=
  match cs with
  | c :: rest =>
    if c = 'e' ∨ c = 'E' then
      match rest with
      | s :: rest1 =>
        if s = '+' ∨ s = '-' then
          match spanDigits rest1 with
          | ([], _) => none
          | (ds, rest2) => some (c :: s :: ds, rest2)
        else
          match spanDigits rest with
          | ([], _) => none
          | (ds, rest2) => some (c :: ds, rest2)
      | [] => none
    else some ([], cs)
  | [] => some ([], cs)

/-- Integer part of a number literal without its sign: a single `0`, or a
non-zero digit followed by digits. -/
def scanIntPart (cs : List Char) : Option (List Char × List Char) :=
  match cs with
  | c :: rest =>
    if c = '0' then some ([c], rest)
    else if (digitVal c).isSome then some (c :: (spanDigits rest).1, (spanDigits rest).2)
    else none
  | [] => none

/-- The parts of a number literal after an optional minus sign. -/
def scanUnsigned (cs : List Char) : Option (List Char × List Char) :=
  match scanIntPart cs with
  | none => none
  | some (ip, r1) =>
    match scanFrac r1 with
    | none => none
    | some (fp, r2) =>
      match scanExp r2 with
      | none => none
      | some (ep, r3) => some (ip ++ fp ++ ep, r3)

/-- A number literal: the literal as written and the input after it. -/
def scanNumber (cs : List Char) : Option (List Char × List Char) :=
  match cs with
  | c :: rest =>
    if c = '-' then
      match scanUnsigned rest with
      | none => none
      | some (lit, r) => some (c :: lit, r)
    else scanUnsigned cs
  | [] => none

/-- Wraps the result of a scanner into a syntax-tree node. -/
def mapValue (f : List Char → JSON) (r : Option (List Char × List Char)) :
    Option (JSON × List Char) :=
  match r with
  | none => none
  | some (s, rest) => some (f s, rest)

/-- One JSON value with leading whitespace, and the input after it.  The
first argument bounds the depth of the recursion; `parse` supplies more than
any text of that length can use: every level of the recursion reads at least
one character before it descends. -/
def parseValue : Nat → List Char → Option (JSON × List Char)
  | 0, _ => none
  | fuel + 1, cs =>
    match skipSpace cs with
    | [] => none
    | c :: rest =>
      if c = '"' then mapValue JSON.str (scanString rest)
      else if c = '\x7b' then
        match skipSpace rest with
        | [] => none
        | c1 :: rest1 =>
          if c1 = '\x7d' then some (JSON.obj [], rest1)
          else
            match parseMembers fuel (c1 :: rest1) with
            | none => none
            | some (ms, r) => some (JSON.obj ms, r)
      else if c = '[' then
        match skipSpace rest with
        | [] => none
        | c1 :: rest1 =>
          if c1 = ']' then some (JSON.arr [], rest1)
          else
            match parseElems fuel (c1 :: rest1) with
            | none => none
            | some (vs, r) => some (JSON.arr vs, r)
      else if c = 't' then
        match rest with
        | r :: u :: e :: rest1 =>
          if r = 'r' ∧ u = 'u' ∧ e = 'e' then some (JSON.bool true, rest1) else none
        | _ => none
      else if c = 'f' then
        match rest with
        | a :: l :: s :: e :: rest1 =>
          if a = 'a' ∧ l = 'l' ∧ s = 's' ∧ e = 'e' then some (JSON.bool false, rest1) else none
        | _ => none
      else if c = 'n' then
        match rest with
        | u :: l :: l1 :: rest1 =>
          if u = 'u' ∧ l = 'l' ∧ l1 = 'l' then some (JSON.null, rest1) else none
        | _ => none
      else mapValue JSON.num (scanNumber (c :: rest))
where
  /-- The elements of a non-empty array, from the first element to the
  closing bracket. -/
  parseElems : Nat → List Char → Option (List JSON × List Char)
    | 0, _ => none
    | fuel + 1, cs =>
      match parseValue fuel cs with
      | none => none
      | some (v, r) =>
        match skipSpace r with
        | [] => none
        | c :: rest =>
          if c = ',' then
            match parseElems fuel rest with
            | none => none
            | some (vs, r1) => some (v :: vs, r1)
          else if c = ']' then some ([v], rest)
          else none
  /-- The members of a non-empty object, from the first key to the closing
  brace. -/
  parseMembers : Nat → List Char → Option (List (List Char × JSON) × List Char)
    | 0, _ => none
    | fuel + 1, cs =>
      match skipSpace cs with
      | [] => none
      | q :: rest =>
        if q = '"' then
          match scanString rest with
          | none => none
          | some (k, r1) =>
            match skipSpace r1 with
            | [] => none
            | c :: r2 =>
              if c = ':' then
                match parseValue fuel r2 with
                | none => none
                | some (v, r3) =>
                  match skipSpace r3 with
                  | [] => none
                  | c1 :: r4 =>
                    if c1 = ',' then
                      match parseMembers fuel r4 with
                      | none => none
                      | some (ms, r5) => some ((k, v) :: ms, r5)
                    else if c1 = '\x7d' then some ([(k, v)], r4)
                    else none
              else none
        else none

/-- The syntax tree of a JSON text: one value, whitespace around it, nothing
else; `none` is a syntax error. -/
def parse (data : String) : Option JSON :=
  match parseValue (data.length + 1) data.data with
  | none => none
  | some (v, rest) => if skipSpace rest = [] then some v else none

/-! ## `encoding/json`: the two targets of the chaincode -/

/-- Source `Trade`: the record type, with the JSON names of its fields in the
order of declaration `tradedate`, `valuedate`, `operation`, `quantity`,
`security`, `price`, `counterparty`, `user`, `timestamp`, `settled`,
`needsrevision`. -/
structure Trade where
  TradeDate : String
  ValueDate : String
  Operation : String
  Quantity : Int
  Security : String
  Price : String
  Counterparty : String
  User : String
  Timestamp : Int
  Settled : Int
  NeedsRevision : Int
deriving DecidableEq

/-- Modelled from the spec: the record type `Marble` that `set_user` decodes
into is not declared in the source; the spec has the operation decode the
trade record and rewrite its `user` field, so it is the `Trade` struct. -/
abbrev Marble : Type := Trade

/-- The zero value `Marble{}` of the record type. -/
def Trade.zero : Trade :=
  { TradeDate := "", ValueDate := "", Operation := "", Quantity := 0, Security := "",
    Price := "", Counterparty := "", User := "", Timestamp := 0, Settled := 0,
    NeedsRevision := 0 }

/-- Storing a JSON value into a Go `string`: a string literal is stored,
`null` and values of any other type (a type error that decoding steps over)
leave the old contents. -/
def storeString (v : JSON) (old : String) : String :=
  match v with
  | JSON.str s => String.mk s
  | _ => old

/-- Storing a JSON value into a Go `int` / `int64`: a number literal that
`strconv.ParseInt` accepts is stored; anything else leaves the old contents. -/
def storeInt (v : JSON) (old : Int) : Int :=
  match v with
  | JSON.num lit =>
    match ParseInt lit with
    | some n => n
    | none => old
  | _ => old

/-- Whether the rune `r` of an object key matches the lower-case ASCII letter
`n` of a field name under Unicode simple case folding. -/
def foldsTo (n r : Char) : Bool :=
  r = n ∨ r = n.toUpper ∨ (n = 's' ∧ r = Char.ofNat 0x17F) ∨ (n = 'k' ∧ r = Char.ofNat 0x212A)

/-- Case-insensitive match of an object key against a field name, as the
decoder does when it looks up the struct field for a key. -/
def equalFold : List Char → List Char → Bool
  | [], [] => true
  | n :: ns, r :: rs => foldsTo n r && equalFold ns rs
  | _, _ => false

/-- Stores one object member into the field of the record it names; a key that
names no field is stepped over. -/
def setField (t : Trade) (m : List Char × JSON) : Trade :=
  if equalFold "tradedate".data m.1 then { t with TradeDate := storeString m.2 t.TradeDate }
  else if equalFold "valuedate".data m.1 then { t with ValueDate := storeString m.2 t.ValueDate }
  else if equalFold "operation".data m.1 then { t with Operation := storeString m.2 t.Operation }
  else if equalFold "quantity".data m.1 then { t with Quantity := storeInt m.2 t.Quantity }
  else if equalFold "security".data m.1 then { t with Security := storeString m.2 t.Security }
  else if equalFold "price".data m.1 then { t with Price := storeString m.2 t.Price }
  else if equalFold "counterparty".data m.1 then
    { t with Counterparty := storeString m.2 t.Counterparty }
  else if equalFold "user".data m.1 then { t with User := storeString m.2 t.User }
  else if equalFold "timestamp".data m.1 then { t with Timestamp := storeInt m.2 t.Timestamp }
  else if equalFold "settled".data m.1 then { t with Settled := storeInt m.2 t.Settled }
  else if equalFold "needsrevision".data m.1 then
    { t with NeedsRevision := storeInt m.2 t.NeedsRevision }
  else t

/-- Go `json.Unmarshal(data, &res)` for a record `res`, with the returned
error dropped as both call sites do: a syntax error leaves `res` untouched, a
JSON object is stored member by member, any other value is a type error (or
`null`) and leaves `res` untouched. -/
def UnmarshalTrade (data : String) (res : Trade) : Trade :=
  match parse data with
  | some (JSON.obj ms) => ms.foldl setField res
  | _ => res

/-- Go `json.Unmarshal(data, &tradeIndex)` for a `[]string` variable that is
nil before the call (`none` is the nil slice), with the returned error
dropped: a JSON array gives a non-nil slice whose elements are the string
literals, the empty string for an element of another type; everything else
leaves the variable nil. -/
def UnmarshalStrings (data : String) : Option (List String) :=
  match parse data with
  | some (JSON.arr vs) => some (vs.map fun v => storeString v "")
  | _ => none

/-! ## `encoding/json`: writing -/

/-- Lower-case hexadecimal digit. -/
def hexDigit (d : Nat) : Char :=
  if d < 10 then Char.ofNat (48 + d) else Char.ofNat (87 + d)

/-- How `json.Marshal` writes one rune inside a string literal (HTML escaping
on, as is the default).  Backspace and form feed are written with their short
escapes, as current Go releases do; older releases write them as `\u0008` and
`\u000c`, which read back as the same runes. -/
def escapeRune (c : Char) : List Char :=
  if c = '"' then ['\\', '"']
  else if c = '\\' then ['\\', '\\']
  else if c = Char.ofNat 8 then ['\\', 'b']
  else if c = Char.ofNat 12 then ['\\', 'f']
  else if c = '\n' then ['\\', 'n']
  else if c = '\r' then ['\\', 'r']
  else if c = '\t' then ['\\', 't']
  else if c.toNat < 32 ∨ c = '<' ∨ c = '>' ∨ c = '&' then
    ['\\', 'u', '0', '0', hexDigit (c.toNat / 16), hexDigit (c.toNat % 16)]
  else if c = Char.ofNat 0x2028 ∨ c = Char.ofNat 0x2029 then
    ['\\', 'u', '2', '0', '2', hexDigit (c.toNat % 16)]
  else [c]

/-- The escaped contents of a string literal. -/
def escape : List Char → List Char
  | [] => []
  | c :: cs => escapeRune c ++ escape cs

/-- A Go string as `json.Marshal` writes it. -/
def quote (s : String) : String := String.mk ('"' :: (escape s.data ++ ['"']))

/-- Comma-separated string literals. -/
def joinQuoted : List String → String
  | [] => ""
  | [x] => quote x
  | x :: y :: rest => quote x ++ "," ++ joinQuoted (y :: rest)

/-- Go `json.Marshal` of a `[]string` (`none` is the nil slice). -/
def MarshalStrings : Option (List String) → String
  | none => "null"
  | some xs => "[" ++ joinQuoted xs ++ "]"

/-- Go `json.Marshal` of a record. -/
def MarshalTrade (t : Trade) : String :=
  "\x7b\"tradedate\":" ++ quote t.TradeDate ++ ",\"valuedate\":" ++ quote t.ValueDate ++
  ",\"operation\":" ++ quote t.Operation ++ ",\"quantity\":" ++ Itoa t.Quantity ++
  ",\"security\":" ++ quote t.Security ++ ",\"price\":" ++ quote t.Price ++
  ",\"counterparty\":" ++ quote t.Counterparty ++ ",\"user\":" ++ quote t.User ++
  ",\"timestamp\":" ++ Itoa t.Timestamp ++ ",\"settled\":" ++ Itoa t.Settled ++
  ",\"needsrevision\":" ++ Itoa t.NeedsRevision ++ "\x7d"

/-! ## The ledger behind `shim.ChaincodeStub` -/

/-- The state a chaincode call works on.  `state` is the ledger's key/value
state (`none` for a key that holds nothing); `getError` and `putError` say
which reads and writes the peer fails, and with which error. -/
structure ChaincodeStub where
  state : String → Option String
  getError : String → Option String
  putError : String → String → Option String

/-- Shim `GetState`: the error of a failing read, or the bytes under the key
(`none`, the nil slice, for a key that holds nothing). -/
def ChaincodeStub.GetState (stub : ChaincodeStub) (key : String) : Except String (Option String) :=
  match stub.getError key with
  | some e => Except.error e
  | none => Except.ok (stub.state key)

/-- Shim `PutState`: the error of a failing write, or the ledger with the
value under the key. -/
def ChaincodeStub.PutState (stub : ChaincodeStub) (key value : String) :
    Except String ChaincodeStub :=
  match stub.putError key value with
  | some e => Except.error e
  | none =>
    Except.ok { stub with state := fun k => if k = key then some value else stub.state k }

/-- The contents of a `[]byte` result, a nil slice being empty. -/
def bytes (b : Option String) : String := b.getD ""

/-- A Go `([]byte, error)` result. -/
abbrev Reply : Type := Except String (Option String)

/-! ## The chaincode -/

/-- Source `tradeIndexStr`. -/
def tradeIndexStr : String := "_tradeindex"

/-- Source `init`: writes the test value under `abc` and clears the index. -/
def init (stub : ChaincodeStub) (args : List String) : Reply × ChaincodeStub :=
  if args.length ≠ 1 then
    (Except.error "Incorrect number of arguments. Expecting 1", stub)
  else
    match Atoi (args.getD 0 "") with
    | none => (Except.error "Expecting integer value for asset holding", stub)
    | some Aval =>
      match stub.PutState "abc" (Itoa Aval) with
      | Except.error err => (Except.error err, stub)
      | Except.ok stub1 =>
        match stub1.PutState tradeIndexStr (MarshalStrings none) with
        | Except.error err => (Except.error err, stub1)
        | Except.ok stub2 => (Except.ok none, stub2)

/-- Source `Query`: the bytes under one key. -/
def Query (stub : ChaincodeStub) (function : String) (args : List String) :
    Reply × ChaincodeStub :=
  if function ≠ "query" then
    (Except.error "Invalid query function name. Expecting \"query\"", stub)
  else if args.length ≠ 1 then
    (Except.error "Incorrect number of arguments. Expecting security of the trade to query", stub)
  else
    match stub.GetState (args.getD 0 "") with
    | Except.error _ =>
      (Except.error
        ("\x7b\"Error\":\"Failed to get state for security " ++ args.getD 0 "" ++ "\"\x7d"), stub)
    | Except.ok valAsbytes => (Except.ok valAsbytes, stub)

/-- The text assembled at line 251 of the source from the normalised fields.
The source concatenates its integers into the text directly; they are written
in decimal, as `strconv.Itoa` does. -/
def tradeText (tradedate valuedate operation : String) (quantity : Int)
    (security price counterparty user : String) (timestamp settled needsrevision : Int) :
    String :=
  "\x7b\"tradedate\": \"" ++ tradedate ++ "\", \"valuedate\": \"" ++ valuedate ++
  "\", \"operation\": \"" ++ operation ++ "\", \"quantity\": " ++ Itoa quantity ++
  ", \"security\": \"" ++ security ++ "\", \"price\": \"" ++ price ++
  "\", \"counterparty\": \"" ++ counterparty ++ "\", \"user\": \"" ++ user ++
  "\", \"timestamp\": \"" ++ Itoa timestamp ++ "\", \"settled\": \"" ++ Itoa settled ++
  "\", \"needsrevision\": \"" ++ Itoa needsrevision ++ "\"\x7d"

/-- Source `init_trade`, from the record write on: the validated and
normalised request is written under `args[0]`, then the index is read,
extended by `args[8]` and written back; the result of the last write is not
looked at. -/
def storeTrade (stub : ChaincodeStub) (args : List String) (str : String) :
    Reply × ChaincodeStub :=
  match stub.PutState (args.getD 0 "") str with
  | Except.error err => (Except.error err, stub)
  | Except.ok stub1 =>
    match stub1.GetState tradeIndexStr with
    | Except.error _ => (Except.error "Failed to get trade index", stub1)
    | Except.ok tradesAsBytes =>
      let tradeIndex := ((UnmarshalStrings (bytes tradesAsBytes)).getD []) ++ [args.getD 8 ""]
      match stub1.PutState tradeIndexStr (MarshalStrings (some tradeIndex)) with
      | Except.error _ => (Except.ok none, stub1)
      | Except.ok stub2 => (Except.ok none, stub2)

/-- Source `init_trade`: creates a trade record and adds to the index. -/
def init_trade (rt : Runtime) (stub : ChaincodeStub) (args : List String) :
    Reply × ChaincodeStub :=
  if args.length ≠ 11 then
    (Except.error "Incorrect number of arguments. Expecting 11", stub)
  else if (args.getD 0 "").length ≤ 0 then
    (Except.error "1st argument must be a non-empty string", stub)
  else if (args.getD 1 "").length ≤ 0 then
    (Except.error "2nd argument must be a non-empty string", stub)
  else if (args.getD 2 "").length ≤ 0 then
    (Except.error "3rd argument must be a non-empty string", stub)
  else if (args.getD 3 "").length ≤ 0 then
    (Except.error "4th argument must be a non-empty string", stub)
  else if (args.getD 4 "").length ≤ 0 then
    (Except.error "5th argument must be a non-empty string", stub)
  else if (args.getD 5 "").length ≤ 0 then
    (Except.error "6th argument must be a non-empty string", stub)
  else if (args.getD 6 "").length ≤ 0 then
    (Except.error "7th argument must be a non-empty string", stub)
  else if (args.getD 7 "").length ≤ 0 then
    (Except.error "8th argument must be a non-empty string", stub)
  else if (args.getD 8 "").length ≤ 0 then
    (Except.error "9th argument must be a non-empty string", stub)
  else if (args.getD 9 "").length ≤ 0 then
    (Except.error "10th argument must be a non-empty string", stub)
  else if (args.getD 10 "").length ≤ 0 then
    (Except.error "11th argument must be a non-empty string", stub)
  else
    let tradedate := ToLower rt (args.getD 0 "")
    let valuedate := ToLower rt (args.getD 1 "")
    let operation := ToLower rt (args.getD 2 "")
    match Atoi (args.getD 3 "") with
    | none => (Except.error "4th argument must be a numeric string", stub)
    | some quantity =>
      let security := ToLower rt (args.getD 4 "")
      let price := ToLower rt (args.getD 5 "")
      let counterparty := ToLower rt (args.getD 6 "")
      let user := ToLower rt (args.getD 7 "")
      let timestamp := makeTimestamp rt
      match Atoi (args.getD 9 "") with
      | none => (Except.error "10th argument must be a numeric string", stub)
      | some settled =>
        match Atoi (args.getD 10 "") with
        | none => (Except.error "11th argument must be a numeric string", stub)
        | some needsrevision =>
          storeTrade stub args
            (tradeText tradedate valuedate operation quantity security price counterparty user
              timestamp settled needsrevision)

/-- Source `set_user`: rewrites the `user` field of the record under a key. -/
def set_user (stub : ChaincodeStub) (args : List String) : Reply × ChaincodeStub :=
  if args.length < 2 then
    (Except.error "Incorrect number of arguments. Expecting 2", stub)
  else
    match stub.GetState (args.getD 0 "") with
    | Except.error _ => (Except.error "Failed to get thing", stub)
    | Except.ok marbleAsBytes =>
      let res : Marble := UnmarshalTrade (bytes marbleAsBytes) Trade.zero
      let res : Marble := { res with User := args.getD 1 "" }
      match stub.PutState (args.getD 0 "") (MarshalTrade res) with
      | Except.error err => (Except.error err, stub)
      | Except.ok stub1 => (Except.ok none, stub1)

/-! ## Notions used in the statements and proofs -/

/-- Every character of the list is a decimal digit. -/
def AllDigits (l : List Char) : Prop := ∀ c ∈ l, (digitVal c).isSome = true

/-- The input after a number literal does not continue the literal. -/
def EndsNumber (rest : List Char) : Prop :=
  match rest with
  | [] => True
  | c :: _ => digitVal c = none ∧ c ≠ '.' ∧ c ≠ 'e' ∧ c ≠ 'E'

/-- Characters that stand for themselves inside a string literal. -/
def Plain (s : List Char) : Prop := ∀ c ∈ s, c ≠ '"' ∧ c ≠ '\\' ∧ 32 ≤ c.toNat

/-- A member value as it is written in a JSON text: a string literal with the
escapes of `json.Marshal`, a string literal written as is, or an integer. -/
inductive Item where
  | text : List Char → Item
  | raw : List Char → Item
  | int : Int → Item

/-- The characters of a member value. -/
def Item.render : Item → List Char
  | Item.text s => '"' :: (escape s ++ ['"'])
  | Item.raw s => '"' :: (s ++ ['"'])
  | Item.int i => formatInt i

/-- The syntax-tree node of a member value. -/
def Item.value : Item → JSON
  | Item.text s => JSON.str s
  | Item.raw s => JSON.str s
  | Item.int i => JSON.num (formatInt i)

/-- A literal written as is must consist of plain characters. -/
def Item.WellFormed : Item → Prop
  | Item.raw s => Plain s
  | _ => True

/-- The members of an object as text: `sp` is written after every colon and
every comma, the closing brace ends the text. -/
def renderMembers (sp : List Char) : List (List Char × Item) → List Char
  | [] => ['\x7d']
  | [m] => '"' :: (m.1 ++ '"' :: ':' :: (sp ++ (m.2.render ++ ['\x7d'])))
  | m :: m1 :: ms =>
    '"' :: (m.1 ++ '"' :: ':' :: (sp ++ (m.2.render ++ ',' :: (sp ++ renderMembers sp (m1 :: ms)))))

/-- Only blanks. -/
def Blank (sp : List Char) : Prop := ∀ c ∈ sp, c = ' '

/-- The members `json.Marshal` writes for a record. -/
def marshalItems (t : Trade) : List (List Char × Item) :=
  [("tradedate".data, Item.text t.TradeDate.data), ("valuedate".data, Item.text t.ValueDate.data),
   ("operation".data, Item.text t.Operation.data), ("quantity".data, Item.int t.Quantity),
   ("security".data, Item.text t.Security.data), ("price".data, Item.text t.Price.data),
   ("counterparty".data, Item.text t.Counterparty.data), ("user".data, Item.text t.User.data),
   ("timestamp".data, Item.int t.Timestamp), ("settled".data, Item.int t.Settled),
   ("needsrevision".data, Item.int t.NeedsRevision)]

/-- The members `init_trade` writes at line 251. -/
def textItems (tradedate valuedate operation : String) (quantity : Int)
    (security price counterparty user : String) (timestamp settled needsrevision : Int) :
    List (List Char × Item) :=
  [("tradedate".data, Item.raw tradedate.data), ("valuedate".data, Item.raw valuedate.data),
   ("operation".data, Item.raw operation.data), ("quantity".data, Item.int quantity),
   ("security".data, Item.raw security.data), ("price".data, Item.raw price.data),
   ("counterparty".data, Item.raw counterparty.data), ("user".data, Item.raw user.data),
   ("timestamp".data, Item.raw (formatInt timestamp)), ("settled".data, Item.raw (formatInt settled)),
   ("needsrevision".data, Item.raw (formatInt needsrevision))]

/-- A 64-bit signed integer. -/
def Int64 (i : Int) : Prop := -(2 ^ 63 : Int) ≤ i ∧ i < 2 ^ 63

/-- The integer fields of the record are 64-bit integers. -/
def Trade.InRange (t : Trade) : Prop :=
  Int64 t.Quantity ∧ Int64 t.Timestamp ∧ Int64 t.Settled ∧ Int64 t.NeedsRevision

/-- A creation request that passes every check of `init_trade`: eleven fields,
none of them empty, and the fields at positions 3, 9 and 10 accepted by
`strconv.Atoi`. -/
def Valid (args : List String) : Prop :=
  args.length = 11 ∧ (∀ i, i < 11 → args.getD i "" ≠ "") ∧
    (Atoi (args.getD 3 "")).isSome = true ∧ (Atoi (args.getD 9 "")).isSome = true ∧
    (Atoi (args.getD 10 "")).isSome = true

instance (args : List String) : Decidable (Valid args) := by
  unfold Valid
  infer_instance

/-- The text `init_trade` assembles at line 251 for a request. -/
def recordText (rt : Runtime) (args : List String) : String :=
  tradeText (ToLower rt (args.getD 0 "")) (ToLower rt (args.getD 1 ""))
    (ToLower rt (args.getD 2 "")) ((Atoi (args.getD 3 "")).getD 0)
    (ToLower rt (args.getD 4 "")) (ToLower rt (args.getD 5 ""))
    (ToLower rt (args.getD 6 "")) (ToLower rt (args.getD 7 "")) (makeTimestamp rt)
    ((Atoi (args.getD 9 "")).getD 0) ((Atoi (args.getD 10 "")).getD 0)

/-- English ordinal of a position, as the error messages write it. -/
def ordinal (n : Nat) : String :=
  if n = 1 then "1st" else if n = 2 then "2nd" else if n = 3 then "3rd"
  else String.mk (formatNat n) ++ "th"

/-- A ledger that holds nothing and fails no read or write. -/
def emptyStub : ChaincodeStub :=
  { state := fun _ => none, getError := fun _ => none, putError := fun _ _ => none }

/-- A clock reading of 2021-01-01 00:00:00 UTC and a case table that maps
every rune above ASCII to itself. -/
def sampleRuntime : Runtime := { unixNano := 1609459200000000000, unicodeLower := id }

/-- The creation request of the specification's scenario. -/
def sampleRequest : List String :=
  ["2021-01-01", "2021-01-02", "buy", "100", "sec1", "99.5", "cpty1", "alice", "corr1", "0", "0"]

/-- The list decoded from the value stored under the index key. -/
def decodedIndex (stub : ChaincodeStub) : List String :=
  (UnmarshalStrings (bytes (stub.state tradeIndexStr))).getD []

/-- No read and no write of the ledger fails. -/
def NeverFails (stub : ChaincodeStub) : Prop :=
  (∀ k, stub.getError k = none) ∧ ∀ k v, stub.putError k v = none

/-- The ledger after a sequence of creation requests, each with the runtime
it observes. -/
def runTrades (stub : ChaincodeStub) : List (Runtime × List String) → ChaincodeStub
  | [] => stub
  | c :: rest => runTrades (init_trade c.1 stub c.2).2 rest

/-- A creation request whose storage key is the index key. -/
def indexKeyRequest : List String :=
  ["_tradeindex", "2021-01-02", "buy", "100", "sec1", "99.5", "cpty1", "alice", "corr2", "0", "0"]

/-- The creation request `indexKeyRequest` with another field at position 8. -/
def otherIndexKeyRequest : List String :=
  ["_tradeindex", "2021-01-02", "buy", "100", "sec1", "99.5", "cpty1", "alice", "zzz", "0", "0"]

/-- The ledger after a write that succeeded. -/
def written (stub : ChaincodeStub) (key value : String) : ChaincodeStub :=
  { stub with state := fun k => if k = key then some value else stub.state k }

/-- The index text `init_trade` writes on a ledger on which the record has
been written: the decoded index with the field at position 8 added. -/
def nextIndex (stub1 : ChaincodeStub) (args : List String) : String :=
  MarshalStrings (some (decodedIndex stub1 ++ [args.getD 8 ""]))

/-- A call of one of the two operations that write trade records. -/
inductive Call where
  | trade : Runtime → List String → Call
  | user : List String → Call

/-- The ledger after one call. -/
def step (stub : ChaincodeStub) : Call → ChaincodeStub
  | Call.trade rt args => (init_trade rt stub args).2
  | Call.user args => (set_user stub args).2

/-- The ledger after a sequence of calls. -/
def run (stub : ChaincodeStub) : List Call → ChaincodeStub
  | [] => stub
  | c :: rest => run (step stub c) rest

/-- A valid creation request with an upper-case operation and the settled
flag set. -/
def upperRequest : List String :=
  ["2021-01-01", "2021-01-02", "BUY", "100", "sec1", "99.5", "cpty1", "alice", "corr1", "1", "0"]

/-- A valid creation request whose user contains a double quote. -/
def quoteRequest : List String :=
  ["2021-01-01", "2021-01-02", "buy", "100", "sec1", "99.5", "cpty1", "al\"ice", "corr1", "0", "0"]

/-- The ledger of the specification's scenario after its creation request, on
a peer that refuses every write. -/
def refusingStub : ChaincodeStub :=
  { state := (init_trade sampleRuntime emptyStub sampleRequest).2.state,
    getError := fun _ => none,
    putError := fun _ _ => some "write refused" }

/-- The ledger of the specification's scenario after `init`, on a peer that
refuses the writes of the index key and no other. -/
def indexRefusingStub : ChaincodeStub :=
  { state := (init emptyStub ["5"]).2.state,
    getError := fun _ => none,
    putError := fun k _ => if k = "_tradeindex" then some "index write refused" else none }

/-- The request of the specification's scenario with another value at
position 8. -/
def otherCorrelationRequest : List String :=
  ["2021-01-01", "2021-01-02", "buy", "100", "sec1", "99.5", "cpty1", "alice", "zzz", "0", "0"]

/-- A request of eleven fields whose settled field is the decimal text of
2^63. -/
def bigSettledRequest : List String :=
  ["2021-01-01", "2021-01-02", "buy", "100", "sec1", "99.5", "cpty1", "alice", "corr1",
    "9223372036854775808", "0"]

/-- The request passes validation: on every ledger `init_trade` goes on to the
record write with the text built from the request. -/
def PassesValidation (rt : Runtime) (args : List String) : Prop :=
  ∀ stub, init_trade rt stub args = storeTrade stub args (recordText rt args)

/-- Lower-casing leaves every rune that the Unicode case table yields as it
is: the property of Go's table that makes `unicode.ToLower` idempotent. -/
def LowerStable (rt : Runtime) : Prop :=
  ∀ c : Char, 128 ≤ c.toNat → toLowerRune rt (rt.unicodeLower c) = rt.unicodeLower c

/-- Every rune of the string is its own lower case. -/
def AlreadyLower (rt : Runtime) (s : String) : Prop :=
  ∀ c ∈ s.data, toLowerRune rt c = c

/-- Every rune of the string is ASCII. -/
def Ascii (s : String) : Prop := ∀ c ∈ s.data, c.toNat < 128

/-! ## Reading back what was written: strings and numbers -/

theorem hexVal_hexDigit (d : Nat) (h : d < 16) : hexVal (hexDigit d) = some d := by
  interval_cases d <;> decide

theorem hexVal_zero : hexVal '0' = some 0 := by decide

theorem hex4_low (n : Nat) (h : n < 256) :
    hex4 '0' '0' (hexDigit (n / 16)) (hexDigit (n % 16)) = some n := by
  have h1 : n / 16 < 16 := by omega
  have h2 : n % 16 < 16 := by omega
  simp only [hex4, hexVal_zero, hexVal_hexDigit _ h1, hexVal_hexDigit _ h2]
  congr 1
  omega

theorem scanStringFrom_skip (l rest : List Char) : scanStringFrom l.length (l ++ rest) = scanStringFrom 0 rest := by
  induction l with
  | nil => rfl
  | cons a l ih => simpa [scanStringFrom] using ih

theorem runeOfEscape_toNat (c : Char) : runeOfEscape c.toNat = c := by
  unfold runeOfEscape
  have hv := c.valid
  have : ¬ (0xD800 ≤ c.toNat ∧ c.toNat < 0xE000) := by
    intro ⟨h1, h2⟩
    rcases hv with h | ⟨h, _⟩
    · have : c.toNat = c.val.toNat := rfl
      omega
    · have : c.toNat = c.val.toNat := rfl
      omega
  rw [if_neg this, Char.ofNat_toNat]

theorem scan_escapeRune (c : Char) (rest : List Char) :
    scanStringFrom 0 (escapeRune c ++ rest) = consRune c (scanStringFrom 0 rest) := by
  unfold escapeRune
  split_ifs with h1 h2 h3 h4 h5 h6 h7 h8 h9
  · subst h1; simp [scanStringFrom, scanEscape, simpleEscape]
  · subst h2; simp [scanStringFrom, scanEscape,simpleEscape]
  · subst h3; simp [scanStringFrom, scanEscape,simpleEscape]
  · subst h4; simp [scanStringFrom, scanEscape,simpleEscape]
  · subst h5; simp [scanStringFrom, scanEscape,simpleEscape]
  · subst h6; simp [scanStringFrom, scanEscape,simpleEscape]
  · subst h7; simp [scanStringFrom, scanEscape,simpleEscape]
  · have hn : c.toNat < 256 := by
      rcases h8 with h | h | h | h
      · omega
      · subst h; decide
      · subst h; decide
      · subst h; decide
    have hs : ¬ (0xD800 ≤ c.toNat ∧ c.toNat < 0xDC00) := by omega
    simp [scanStringFrom, scanEscape, hex4_low _ hn, hs, runeOfEscape_toNat]
  · rcases h9 with h | h
    · subst h
      have e1 : hex4 '2' '0' '2' (hexDigit 8) = some 0x2028 := by decide
      have e2 : runeOfEscape 0x2028 = Char.ofNat 0x2028 := by decide
      simp [scanStringFrom, scanEscape, e1, e2]
    · subst h
      have e1 : hex4 '2' '0' '2' (hexDigit 9) = some 0x2029 := by decide
      have e2 : runeOfEscape 0x2029 = Char.ofNat 0x2029 := by decide
      simp [scanStringFrom, scanEscape, e1, e2]
  · have h32 : ¬ c.toNat < 32 := by
      intro h; exact h8 (Or.inl h)
    simp [scanStringFrom, h1, h2, h32]

theorem scan_escape (s rest : List Char) :
    scanStringFrom 0 (escape s ++ '"' :: rest) = some (s, rest) := by
  induction s with
  | nil => simp [escape, scanStringFrom]
  | cons c cs ih => simp [escape, scan_escapeRune, ih, consRune]

theorem scanString_quote (s : String) (rest : List Char) : 
    scanString ((quote s).data.tail ++ rest) = some (s.data, rest) := by
  simp [quote, scanString, scan_escape]

theorem digitVal_digitChar (d : Nat) (h : d < 10) : digitVal (digitChar d) = some d := by
  interval_cases d <;> decide

theorem digitChar_ne_zero (d : Nat) (h : d < 10) (h0 : 0 < d) : digitChar d ≠ '0' := by
  interval_cases d <;> decide

theorem parseDigitsFrom_append (l1 l2 : List Char) (acc : Nat) :
    parseDigitsFrom acc (l1 ++ l2) = (parseDigitsFrom acc l1).bind fun a => parseDigitsFrom a l2 := by
  induction l1 generalizing acc with
  | nil => simp [parseDigitsFrom]
  | cons c cs ih =>
    simp only [List.cons_append, parseDigitsFrom]
    cases digitVal c with
    | none => simp
    | some d => simp [ih]

theorem parseDigitsFrom_natDigits (fuel n : Nat) (h : n < fuel) (acc : Nat) :
    parseDigitsFrom acc (natDigits fuel n) = some (acc * 10 ^ (natDigits fuel n).length + n) := by
  induction fuel generalizing n acc with
  | zero => omega
  | succ fuel ih =>
    unfold natDigits
    split_ifs with h10
    · simp [parseDigitsFrom, digitVal_digitChar n h10]
    · have hlt : n / 10 < fuel := by omega
      have hmod : n % 10 < 10 := by omega
      rw [parseDigitsFrom_append, ih _ hlt]
      simp only [Option.some_bind, parseDigitsFrom, digitVal_digitChar _ hmod, List.length_append,
        List.length_singleton]
      congr 1
      rw [pow_succ]
      have := Nat.div_add_mod n 10
      nlinarith [this]

theorem natDigits_ne_nil (fuel n : Nat) (h : n < fuel) : natDigits fuel n ≠ [] := by
  cases fuel with
  | zero => omega
  | succ fuel =>
    unfold natDigits
    split_ifs <;> simp

theorem allDigits_natDigits (fuel n : Nat) : AllDigits (natDigits fuel n) := by
  induction fuel generalizing n with
  | zero => intro c hc; simp [natDigits] at hc
  | succ fuel ih =>
    unfold natDigits
    split_ifs with h10
    · intro c hc
      simp only [List.mem_singleton] at hc
      subst hc
      simp [digitVal_digitChar n h10]
    · intro c hc
      rcases List.mem_append.mp hc with hc | hc
      · exact ih _ c hc
      · simp only [List.mem_singleton] at hc
        subst hc
        simp [digitVal_digitChar (n % 10) (by omega)]

theorem natDigits_head (fuel n : Nat) (h : n < fuel) (h0 : 0 < n) :
    ∃ c tl, natDigits fuel n = c :: tl ∧ c ≠ '0' := by
  induction fuel generalizing n with
  | zero => omega
  | succ fuel ih =>
    unfold natDigits
    split_ifs with h10
    · exact ⟨_, [], rfl, digitChar_ne_zero n h10 h0⟩
    · obtain ⟨c, tl, e, hc⟩ := ih (n / 10) (by omega) (by omega)
      exact ⟨c, tl ++ [digitChar (n % 10)], by rw [e]; rfl, hc⟩

theorem parseUint_formatNat (n : Nat) : parseUint (formatNat n) = some n := by
  unfold parseUint formatNat
  have hne := natDigits_ne_nil (n + 1) n (by omega)
  have hp := parseDigitsFrom_natDigits (n + 1) n (by omega) 0
  cases hd : natDigits (n + 1) n with
  | nil => exact absurd hd hne
  | cons c cs => rw [hd] at hp; simpa using hp

theorem spanDigits_append (l rest : List Char) (hl : AllDigits l) (hr : EndsNumber rest) :
    spanDigits (l ++ rest) = (l, rest) := by
  induction l with
  | nil =>
    cases rest with
    | nil => rfl
    | cons c cs => 
      simp only [EndsNumber] at hr
      simp [spanDigits, hr.1]
  | cons c cs ih =>
    have hc : (digitVal c).isSome = true := hl c (List.mem_cons_self _ _)
    have hcs : AllDigits cs := fun x hx => hl x (List.mem_cons_of_mem _ hx)
    simp [spanDigits, hc, ih hcs]

theorem scanFrac_end (rest : List Char) (hr : EndsNumber rest) : scanFrac rest = some ([], rest) := by
  cases rest with
  | nil => rfl
  | cons c cs =>
    simp only [EndsNumber] at hr
    simp [scanFrac, hr.2.1]

theorem scanExp_end (rest : List Char) (hr : EndsNumber rest) : scanExp rest = some ([], rest) := by
  cases rest with
  | nil => rfl
  | cons c cs =>
    simp only [EndsNumber] at hr
    simp [scanExp, hr.2.2.1, hr.2.2.2]

theorem scanUnsigned_formatNat (n : Nat) (rest : List Char) (hr : EndsNumber rest) :
    scanUnsigned (formatNat n ++ rest) = some (formatNat n, rest) := by
  have hall := allDigits_natDigits (n + 1) n
  rcases Nat.eq_zero_or_pos n with h0 | hpos
  · subst h0
    have : formatNat 0 = ['0'] := by decide
    simp [this, scanUnsigned, scanIntPart, scanFrac_end rest hr, scanExp_end rest hr]
  · obtain ⟨c, tl, e, hc⟩ := natDigits_head (n + 1) n (by omega) hpos
    unfold formatNat
    rw [e] at hall ⊢
    have hcd : (digitVal c).isSome = true := hall c (List.mem_cons_self _ _)
    have htl : AllDigits tl := fun x hx => hall x (List.mem_cons_of_mem _ hx)
    simp [scanUnsigned, scanIntPart, hc, hcd, spanDigits_append tl rest htl hr,
      scanFrac_end rest hr, scanExp_end rest hr]

theorem formatNat_head (n : Nat) : ∃ c tl, formatNat n = c :: tl ∧ (digitVal c).isSome = true := by
  have hne := natDigits_ne_nil (n + 1) n (by omega)
  have hall := allDigits_natDigits (n + 1) n
  unfold formatNat
  cases hd : natDigits (n + 1) n with
  | nil => exact absurd hd hne
  | cons c cs => 
    rw [hd] at hall
    exact ⟨c, cs, rfl, hall c (List.mem_cons_self _ _)⟩

theorem digit_ne_of_isSome {c d : Char} (h : (digitVal c).isSome = true) (hd : digitVal d = none) : c ≠ d := by
  rintro rfl
  simp [hd] at h

theorem scanNumber_formatInt (i : Int) (rest : List Char) (hr : EndsNumber rest) :
    scanNumber (formatInt i ++ rest) = some (formatInt i, rest) := by
  cases i with
  | ofNat n =>
    obtain ⟨c, tl, e, hc⟩ := formatNat_head n
    have hminus : c ≠ '-' := digit_ne_of_isSome hc (by decide)
    have hs := scanUnsigned_formatNat n rest hr
    simp only [formatInt]
    rw [e] at hs ⊢
    simp only [List.cons_append, scanNumber, hminus, if_false]
    simpa using hs
  | negSucc n =>
    simp [formatInt, scanNumber, scanUnsigned_formatNat (n + 1) rest hr]

theorem ParseInt_formatInt (i : Int) (hlo : -(2 ^ 63 : Int) ≤ i) (hhi : i < 2 ^ 63) :
    ParseInt (formatInt i) = some i := by
  cases i with
  | ofNat n =>
    obtain ⟨c, tl, e, hc⟩ := formatNat_head n
    have hminus : c ≠ '-' := digit_ne_of_isSome hc (by decide)
    have hplus : c ≠ '+' := digit_ne_of_isSome hc (by decide)
    have hp := parseUint_formatNat n
    simp only [formatInt]
    rw [e] at hp ⊢
    have hn : n < 2 ^ 63 := by
      have h : (n : Int) < 2 ^ 63 := hhi
      omega
    have hn1 : n < 9223372036854775808 := by omega
    simp [ParseInt, hminus, hplus, hp, hn1]
  | negSucc n =>
    have hn : n + 1 ≤ 2 ^ 63 := by
      have h : -(2 ^ 63 : Int) ≤ Int.negSucc n := hlo
      rw [Int.negSucc_eq] at h
      omega
    simp only [formatInt, ParseInt, if_true, parseUint_formatNat, hn]
    simp [Int.negSucc_eq]

/-! ## Reading back what was written: values and objects -/

theorem scan_plain (s rest : List Char) (h : Plain s) :
    scanStringFrom 0 (s ++ '"' :: rest) = some (s, rest) := by
  induction s with
  | nil => simp [scanStringFrom]
  | cons c cs ih =>
    have hc := h c (List.mem_cons_self _ _)
    have hcs : Plain cs := fun x hx => h x (List.mem_cons_of_mem _ hx)
    have h32 : ¬ c.toNat < 32 := by omega
    simp [scanStringFrom, hc.1, hc.2.1, h32, ih hcs, consRune]

theorem skipSpace_blank (sp rest : List Char) (h : Blank sp) : skipSpace (sp ++ rest) = skipSpace rest := by
  induction sp with
  | nil => rfl
  | cons c cs ih =>
    have hc : c = ' ' := h c (List.mem_cons_self _ _)
    have hcs : Blank cs := fun x hx => h x (List.mem_cons_of_mem _ hx)
    subst hc
    simp [skipSpace, isSpace, ih hcs]

theorem skipSpace_quote (rest : List Char) : skipSpace ('"' :: rest) = '"' :: rest := by
  simp [skipSpace, isSpace]

theorem skipSpace_of_not_space (c : Char) (rest : List Char) (h : isSpace c = false) :
    skipSpace (c :: rest) = c :: rest := by
  simp [skipSpace, h]

theorem digit_facts {c : Char} (h : (digitVal c).isSome = true) :
    isSpace c = false ∧ c ≠ '"' ∧ c ≠ '\x7b' ∧ c ≠ '[' ∧ c ≠ 't' ∧ c ≠ 'f' ∧ c ≠ 'n' ∧ c ≠ '-' := by
  refine ⟨?_, ?_, ?_, ?_, ?_, ?_, ?_, ?_⟩
  · rw [Bool.eq_false_iff]
    intro hs
    simp only [isSpace, Bool.decide_or, Bool.or_eq_true, decide_eq_true_eq] at hs
    rcases hs with rfl | rfl | rfl | rfl <;> simp [digitVal] at h
  all_goals
    rintro rfl
    simp [digitVal] at h

theorem parseValue_item (fuel : Nat) (sp : List Char) (hsp : Blank sp) (v : Item)
    (hv : v.WellFormed) (rest : List Char) (hr : EndsNumber rest) :
    parseValue (fuel + 1) (sp ++ (v.render ++ rest)) = some (v.value, rest) := by
  rw [parseValue, skipSpace_blank _ _ hsp]
  cases v with
  | text s =>
    simp [Item.render, Item.value, skipSpace_quote, scanString, scan_escape, mapValue]
  | raw s =>
    simp only [Item.WellFormed] at hv
    simp [Item.render, Item.value, skipSpace_quote, scanString, scan_plain _ _ hv, mapValue]
  | int i =>
    have hs := scanNumber_formatInt i rest hr
    cases i with
    | ofNat n =>
      obtain ⟨c, tl, e, hc⟩ := formatNat_head n
      obtain ⟨h1, h2, h3, h4, h5, h6, h7, _⟩ := digit_facts hc
      simp only [Item.render, Item.value, formatInt] at hs ⊢
      rw [e] at hs ⊢
      simp only [List.cons_append] at hs ⊢
      rw [skipSpace_of_not_space _ _ h1]
      simp [h2, h3, h4, h5, h6, h7, hs, mapValue]
    | negSucc n =>
      simp only [Item.render, Item.value, formatInt, List.cons_append] at hs ⊢
      rw [skipSpace_of_not_space _ _ (by decide)]
      simp [hs, mapValue]

theorem endsNumber_comma (rest : List Char) : EndsNumber (',' :: rest) := by
  simp [EndsNumber]; decide

theorem endsNumber_brace (rest : List Char) : EndsNumber ('\x7d' :: rest) := by
  simp [EndsNumber]; decide

theorem parseMembers_render (sp : List Char) (hsp : Blank sp) (ms : List (List Char × Item))
    (hne : ms ≠ []) (hk : ∀ m ∈ ms, Plain m.1 ∧ m.2.WellFormed) (rest : List Char) (fuel : Nat)
    (hf : ms.length < fuel) (pre : List Char) (hpre : Blank pre) :
    parseValue.parseMembers fuel (pre ++ (renderMembers sp ms ++ rest)) =
      some (ms.map fun m => (m.1, m.2.value), rest) := by
  induction ms generalizing fuel pre with
  | nil => exact absurd rfl hne
  | cons m ms ih =>
    obtain ⟨hm1, hm2⟩ := hk m (List.mem_cons_self _ _)
    cases fuel with
    | zero => simp at hf
    | succ fuel =>
      cases fuel with
      | zero => simp at hf
      | succ fuel =>
        cases ms with
        | nil =>
          rw [parseValue.parseMembers, skipSpace_blank _ _ hpre]
          simp only [renderMembers, List.cons_append, List.append_assoc, skipSpace_quote]
          simp only [scanString, scan_plain _ _ hm1, if_true]
          rw [skipSpace_of_not_space _ _ (by decide)]
          simp only [if_true]
          rw [parseValue_item _ sp hsp m.2 hm2 _ (endsNumber_brace _)]
          simp only []
          rw [skipSpace_of_not_space _ _ (by decide)]
          simp
        | cons m1 ms =>
          have hrec := ih (by simp) (fun x hx => hk x (List.mem_cons_of_mem _ hx)) (fuel + 1)
            (by simp only [List.length_cons] at hf ⊢; omega) sp hsp
          rw [parseValue.parseMembers, skipSpace_blank _ _ hpre]
          simp only [renderMembers, List.cons_append, List.append_assoc, skipSpace_quote]
          simp only [scanString, scan_plain _ _ hm1, if_true]
          rw [skipSpace_of_not_space _ _ (by decide)]
          simp only [if_true]
          rw [parseValue_item _ sp hsp m.2 hm2 _ (endsNumber_comma _)]
          simp only []
          rw [skipSpace_of_not_space _ _ (by decide)]
          simp only [if_true]
          simp only [renderMembers, List.cons_append, List.append_assoc] at hrec
          rw [hrec]
          simp

theorem renderMembers_length (sp : List Char) (ms : List (List Char × Item)) :
    ms.length < (renderMembers sp ms).length := by
  induction ms with
  | nil => simp [renderMembers]
  | cons m ms ih =>
    cases ms with
    | nil => simp [renderMembers]
    | cons m1 ms =>
      simp only [renderMembers, List.length_cons, List.length_append] at ih ⊢
      omega

/-- Reading back an object written member by member. -/
theorem parse_object (sp : List Char) (hsp : Blank sp) (ms : List (List Char × Item))
    (hne : ms ≠ []) (hk : ∀ m ∈ ms, Plain m.1 ∧ m.2.WellFormed) :
    parse (String.mk ('\x7b' :: renderMembers sp ms)) =
      some (JSON.obj (ms.map fun m => (m.1, m.2.value))) := by
  have hlen := renderMembers_length sp ms
  have hp := parseMembers_render sp hsp ms hne hk [] (renderMembers sp ms).length.succ
    (by omega) [] (by intro c hc; simp at hc)
  simp only [List.append_nil, List.nil_append] at hp
  unfold parse
  simp only [String.length, List.length_cons]
  rw [parseValue, skipSpace_of_not_space _ _ (by decide)]
  simp only [show ('\x7b' : Char) ≠ '"' by decide, if_false, if_true]
  cases hms : ms with
  | nil => exact absurd hms hne
  | cons m ms1 =>
    have hq : ∃ tl, renderMembers sp (m :: ms1) = '"' :: tl := by
      cases ms1 <;> exact ⟨_, rfl⟩
    obtain ⟨tl, htl⟩ := hq
    rw [hms] at hp
    rw [htl] at hp ⊢
    rw [skipSpace_quote]
    simp only [show ('"' : Char) ≠ '\x7d' by decide, if_false]
    rw [hp]
    simp [skipSpace]

theorem MarshalTrade_eq (t : Trade) :
    MarshalTrade t = String.mk ('\x7b' :: renderMembers [] (marshalItems t)) := by
  apply String.ext
  simp [MarshalTrade, quote, Itoa, renderMembers, marshalItems, Item.render]

set_option maxRecDepth 8000 in
theorem tradeText_eq (a b c : String) (q : Int) (d e f g : String) (ts s n : Int) :
    tradeText a b c q d e f g ts s n =
      String.mk ('\x7b' :: renderMembers [' '] (textItems a b c q d e f g ts s n)) := by
  apply String.ext
  simp [tradeText, Itoa, renderMembers, textItems, Item.render]

theorem setField_tradedate (t : Trade) (v : JSON) :
    setField t (['t', 'r', 'a', 'd', 'e', 'd', 'a', 't', 'e'], v) = { t with TradeDate := storeString v t.TradeDate } := rfl

theorem setField_valuedate (t : Trade) (v : JSON) :
    setField t (['v', 'a', 'l', 'u', 'e', 'd', 'a', 't', 'e'], v) = { t with ValueDate := storeString v t.ValueDate } := rfl

theorem setField_operation (t : Trade) (v : JSON) :
    setField t (['o', 'p', 'e', 'r', 'a', 't', 'i', 'o', 'n'], v) = { t with Operation := storeString v t.Operation } := rfl

theorem setField_quantity (t : Trade) (v : JSON) :
    setField t (['q', 'u', 'a', 'n', 't', 'i', 't', 'y'], v) = { t with Quantity := storeInt v t.Quantity } := rfl

theorem setField_security (t : Trade) (v : JSON) :
    setField t (['s', 'e', 'c', 'u', 'r', 'i', 't', 'y'], v) = { t with Security := storeString v t.Security } := rfl

theorem setField_price (t : Trade) (v : JSON) :
    setField t (['p', 'r', 'i', 'c', 'e'], v) = { t with Price := storeString v t.Price } := rfl

theorem setField_counterparty (t : Trade) (v : JSON) :
    setField t (['c', 'o', 'u', 'n', 't', 'e', 'r', 'p', 'a', 'r', 't', 'y'], v) =
      { t with Counterparty := storeString v t.Counterparty } := rfl

theorem setField_user (t : Trade) (v : JSON) :
    setField t (['u', 's', 'e', 'r'], v) = { t with User := storeString v t.User } := rfl

theorem setField_timestamp (t : Trade) (v : JSON) :
    setField t (['t', 'i', 'm', 'e', 's', 't', 'a', 'm', 'p'], v) = { t with Timestamp := storeInt v t.Timestamp } := rfl

theorem setField_settled (t : Trade) (v : JSON) :
    setField t (['s', 'e', 't', 't', 'l', 'e', 'd'], v) = { t with Settled := storeInt v t.Settled } := rfl

theorem setField_needsrevision (t : Trade) (v : JSON) :
    setField t (['n', 'e', 'e', 'd', 's', 'r', 'e', 'v', 'i', 's', 'i', 'o', 'n'], v) =
      { t with NeedsRevision := storeInt v t.NeedsRevision } := rfl

theorem fold_marshal (t : Trade) (hq : ParseInt (formatInt t.Quantity) = some t.Quantity)
    (hts : ParseInt (formatInt t.Timestamp) = some t.Timestamp)
    (hs : ParseInt (formatInt t.Settled) = some t.Settled)
    (hn : ParseInt (formatInt t.NeedsRevision) = some t.NeedsRevision) (t0 : Trade) :
    ((marshalItems t).map fun m => (m.1, m.2.value)).foldl setField t0 = t := by
  simp only [marshalItems, List.map, Item.value, List.foldl, setField_tradedate,
    setField_valuedate, setField_operation, setField_quantity, setField_security, setField_price,
    setField_counterparty, setField_user, setField_timestamp, setField_settled,
    setField_needsrevision, storeString, storeInt, hq, hts, hs, hn]

theorem fold_text (a b c : String) (q : Int) (d e f g : String) (ts s n : Int) (t0 : Trade) :
    ((textItems a b c q d e f g ts s n).map fun m => (m.1, m.2.value)).foldl setField t0 =
      { t0 with TradeDate := a, ValueDate := b, Operation := c,
                Quantity := storeInt (JSON.num (formatInt q)) t0.Quantity, Security := d,
                Price := e, Counterparty := f, User := g } := by
  simp only [textItems, List.map, Item.value, List.foldl, setField_tradedate,
    setField_valuedate, setField_operation, setField_quantity, setField_security, setField_price,
    setField_counterparty, setField_user, setField_timestamp, setField_settled,
    setField_needsrevision, storeString, storeInt]

/-! ## Reading back what was written: the index and the record -/

theorem endsNumber_bracket (rest : List Char) : EndsNumber (']' :: rest) := by
  simp [EndsNumber]; decide

theorem quote_data (s : String) : (quote s).data = (Item.text s.data).render := rfl

theorem joinQuoted_length (xs : List String) : xs.length ≤ (joinQuoted xs).data.length + 1 := by
  induction xs with
  | nil => simp
  | cons x xs ih =>
    cases xs with
    | nil => simp
    | cons y ys =>
      simp only [joinQuoted, String.data_append, List.length_append, List.length_cons] at ih ⊢
      have : 1 ≤ (",".data).length := by decide
      omega

theorem parseElems_joinQuoted (x : String) (xs : List String) (rest : List Char) (fuel : Nat)
    (hf : (x :: xs).length < fuel) :
    parseValue.parseElems fuel ((joinQuoted (x :: xs)).data ++ ']' :: rest) =
      some ((x :: xs).map fun s => JSON.str s.data, rest) := by
  induction xs generalizing x fuel with
  | nil =>
    cases fuel with
    | zero => simp at hf
    | succ fuel =>
      cases fuel with
      | zero => simp at hf
      | succ fuel =>
        rw [parseValue.parseElems]
        simp only [joinQuoted, quote_data]
        have h := parseValue_item fuel [] (by intro c hc; simp at hc) (Item.text x.data) trivial
          (']' :: rest) (endsNumber_bracket _)
        simp only [List.nil_append] at h
        rw [h]
        simp only []
        rw [skipSpace_of_not_space _ _ (by decide)]
        simp [Item.value]
  | cons y ys ih =>
    cases fuel with
    | zero => simp at hf
    | succ fuel =>
      cases fuel with
      | zero => simp at hf
      | succ fuel =>
        have hrec := ih y (fuel + 1) (by simp only [List.length_cons] at hf ⊢; omega)
        rw [parseValue.parseElems]
        simp only [joinQuoted, String.data_append, quote_data, List.append_assoc]
        have h := parseValue_item fuel [] (by intro c hc; simp at hc) (Item.text x.data) trivial
          (",".data ++ ((joinQuoted (y :: ys)).data ++ ']' :: rest)) (endsNumber_comma _)
        simp only [List.nil_append] at h
        rw [h]
        simp only []
        rw [List.singleton_append, skipSpace_of_not_space _ _ (by decide)]
        simp only [if_true]
        rw [hrec]
        simp [Item.value]

/-- Reading back a written index gives the index. -/
theorem UnmarshalStrings_MarshalStrings (xs : List String) :
    UnmarshalStrings (MarshalStrings (some xs)) = some xs := by
  cases xs with
  | nil => decide
  | cons x xs =>
    have hlen := joinQuoted_length (x :: xs)
    have hq : ∃ tl, (joinQuoted (x :: xs)).data = '"' :: tl := by
      cases xs <;> exact ⟨_, rfl⟩
    obtain ⟨tl, htl⟩ := hq
    have hp := parseElems_joinQuoted x xs [] (tl.length + 3)
      (by rw [htl] at hlen; simp only [List.length_cons] at hlen ⊢; omega)
    rw [htl] at hp
    have hd : (MarshalStrings (some (x :: xs))).data = '[' :: ('"' :: tl ++ [']']) := by
      simp [MarshalStrings, htl]
    have hl : (MarshalStrings (some (x :: xs))).length = tl.length + 3 := by
      simp [String.length, hd]
    have hparse : parse (MarshalStrings (some (x :: xs))) =
        some (JSON.arr ((x :: xs).map fun s => JSON.str s.data)) := by
      unfold parse
      rw [hd, hl, parseValue, skipSpace_of_not_space _ _ (by decide)]
      simp only [show ('[' : Char) ≠ '"' by decide, show ('[' : Char) ≠ '\x7b' by decide, if_false,
        if_true, List.cons_append]
      rw [skipSpace_quote]
      simp only [show ('"' : Char) ≠ ']' by decide, if_false]
      simp only [List.cons_append] at hp
      rw [hp]
      simp [skipSpace]
    unfold UnmarshalStrings
    rw [hparse]
    simp only [List.map_map]
    congr 1
    exact (List.map_congr_left (fun s _ => rfl)).trans (List.map_id _)

theorem parseValue_brace (fuel : Nat) (tl : List Char) :
    parseValue fuel ('\x7b' :: tl) = none ∨
      ∃ ms r, parseValue fuel ('\x7b' :: tl) = some (JSON.obj ms, r) := by
  cases fuel with
  | zero => left; rfl
  | succ fuel =>
    rw [parseValue, skipSpace_of_not_space _ _ (by decide)]
    simp only [show ('\x7b' : Char) ≠ '"' by decide, if_false, if_true]
    cases skipSpace tl with
    | nil => left; rfl
    | cons c1 rest1 =>
      simp only []
      split_ifs with h1
      · right; exact ⟨_, _, rfl⟩
      · cases parseValue.parseMembers fuel (c1 :: rest1) with
        | none => left; rfl
        | some p => right; exact ⟨_, _, rfl⟩

/-- A text that opens with a brace is read as an object or not at all. -/
theorem parse_brace (data : String) (tl : List Char) (h : data.data = '\x7b' :: tl) :
    parse data = none ∨ ∃ ms, parse data = some (JSON.obj ms) := by
  unfold parse
  rw [h]
  rcases parseValue_brace (data.length + 1) tl with h1 | ⟨ms, r, h1⟩
  · left; rw [h1]
  · rw [h1]
    simp only []
    split_ifs
    · right; exact ⟨ms, rfl⟩
    · left; rfl

/-- A text that opens with a brace is not read as a list of strings. -/
theorem UnmarshalStrings_brace (data : String) (tl : List Char) (h : data.data = '\x7b' :: tl) :
    UnmarshalStrings data = none := by
  unfold UnmarshalStrings
  rcases parse_brace data tl h with h1 | ⟨ms, h1⟩ <;> rw [h1]

theorem ParseInt_range (cs : List Char) (i : Int) (h : ParseInt cs = some i) : Int64 i := by
  cases cs with
  | nil => simp [ParseInt] at h
  | cons c rest =>
    rw [ParseInt] at h
    by_cases hc : c = '-'
    · rw [if_pos hc] at h
      cases hp : parseUint rest with
      | none => rw [hp] at h; simp at h
      | some n =>
        rw [hp] at h
        by_cases hn : n ≤ 2 ^ 63
        · simp only [hn, if_true, Option.some.injEq] at h
          subst h
          constructor <;> omega
        · simp only [hn, if_false] at h
          exact absurd h (by simp)
    · rw [if_neg hc] at h
      cases hp : parseUint (if c = '+' then rest else c :: rest) with
      | none => rw [hp] at h; simp at h
      | some n =>
        rw [hp] at h
        by_cases hn : n < 2 ^ 63
        · simp only [hn, if_true, Option.some.injEq] at h
          subst h
          constructor <;> omega
        · simp only [hn, if_false] at h
          exact absurd h (by simp)

theorem storeInt_range (v : JSON) (old : Int) (h : Int64 old) : Int64 (storeInt v old) := by
  unfold storeInt
  split
  · split
    · rename_i lit n hn
      exact ParseInt_range _ _ hn
    · exact h
  · exact h

theorem setField_inRange (t : Trade) (m : List Char × JSON) (h : t.InRange) :
    (setField t m).InRange := by
  obtain ⟨h1, h2, h3, h4⟩ := h
  unfold setField
  by_cases e0 : equalFold "tradedate".data m.1 = true
  · rw [if_pos e0]; exact ⟨h1, h2, h3, h4⟩
  rw [if_neg e0]
  by_cases e1 : equalFold "valuedate".data m.1 = true
  · rw [if_pos e1]; exact ⟨h1, h2, h3, h4⟩
  rw [if_neg e1]
  by_cases e2 : equalFold "operation".data m.1 = true
  · rw [if_pos e2]; exact ⟨h1, h2, h3, h4⟩
  rw [if_neg e2]
  by_cases e3 : equalFold "quantity".data m.1 = true
  · rw [if_pos e3]; exact ⟨storeInt_range _ _ h1, h2, h3, h4⟩
  rw [if_neg e3]
  by_cases e4 : equalFold "security".data m.1 = true
  · rw [if_pos e4]; exact ⟨h1, h2, h3, h4⟩
  rw [if_neg e4]
  by_cases e5 : equalFold "price".data m.1 = true
  · rw [if_pos e5]; exact ⟨h1, h2, h3, h4⟩
  rw [if_neg e5]
  by_cases e6 : equalFold "counterparty".data m.1 = true
  · rw [if_pos e6]; exact ⟨h1, h2, h3, h4⟩
  rw [if_neg e6]
  by_cases e7 : equalFold "user".data m.1 = true
  · rw [if_pos e7]; exact ⟨h1, h2, h3, h4⟩
  rw [if_neg e7]
  by_cases e8 : equalFold "timestamp".data m.1 = true
  · rw [if_pos e8]; exact ⟨h1, storeInt_range _ _ h2, h3, h4⟩
  rw [if_neg e8]
  by_cases e9 : equalFold "settled".data m.1 = true
  · rw [if_pos e9]; exact ⟨h1, h2, storeInt_range _ _ h3, h4⟩
  rw [if_neg e9]
  by_cases e10 : equalFold "needsrevision".data m.1 = true
  · rw [if_pos e10]; exact ⟨h1, h2, h3, storeInt_range _ _ h4⟩
  rw [if_neg e10]
  exact ⟨h1, h2, h3, h4⟩

theorem foldl_setField_inRange (ms : List (List Char × JSON)) (t : Trade) (h : t.InRange) :
    (ms.foldl setField t).InRange := by
  induction ms generalizing t with
  | nil => exact h
  | cons m ms ih => exact ih _ (setField_inRange t m h)

theorem zero_inRange : Trade.zero.InRange := by
  simp [Trade.InRange, Trade.zero, Int64]

/-- Whatever is decoded into a record has 64-bit integer fields. -/
theorem UnmarshalTrade_inRange (data : String) (t : Trade) (h : t.InRange) :
    (UnmarshalTrade data t).InRange := by
  unfold UnmarshalTrade
  split
  · exact foldl_setField_inRange _ _ h
  · exact h

/-- Reading back a written record gives the record. -/
theorem UnmarshalTrade_MarshalTrade (t : Trade) (h : t.InRange) (t0 : Trade) :
    UnmarshalTrade (MarshalTrade t) t0 = t := by
  obtain ⟨⟨a1, a2⟩, ⟨b1, b2⟩, ⟨c1, c2⟩, ⟨d1, d2⟩⟩ := h
  have hp := parse_object [] (by intro c hc; simp at hc) (marshalItems t) (by simp [marshalItems])
    (by
      intro m hm
      simp only [marshalItems, List.mem_cons, List.mem_singleton, List.not_mem_nil, or_false] at hm
      rcases hm with rfl | rfl | rfl | rfl | rfl | rfl | rfl | rfl | rfl | rfl | rfl <;>
        exact ⟨by dsimp only; unfold Plain; decide, trivial⟩)
  unfold UnmarshalTrade
  rw [MarshalTrade_eq, hp]
  exact fold_marshal t (ParseInt_formatInt _ a1 a2) (ParseInt_formatInt _ b1 b2)
    (ParseInt_formatInt _ c1 c2) (ParseInt_formatInt _ d1 d2) t0

/-! ## Validation in `init_trade` and the bytes `Query` returns -/

theorem length_le_zero (s : String) : s.length ≤ 0 ↔ s = "" := by
  constructor
  · intro h
    apply String.ext
    have : s.data.length = 0 := Nat.le_zero.mp h
    simpa using List.length_eq_zero.mp this
  · rintro rfl
    decide

/-- With eleven non-empty fields `init_trade` comes down to its three integer
checks and the writes. -/
theorem init_trade_nonempty (rt : Runtime) (stub : ChaincodeStub) (args : List String)
    (hlen : args.length = 11) (hne : ∀ i, i < 11 → args.getD i "" ≠ "") :
    init_trade rt stub args =
      match Atoi (args.getD 3 "") with
      | none => (Except.error "4th argument must be a numeric string", stub)
      | some quantity =>
        match Atoi (args.getD 9 "") with
        | none => (Except.error "10th argument must be a numeric string", stub)
        | some settled =>
          match Atoi (args.getD 10 "") with
          | none => (Except.error "11th argument must be a numeric string", stub)
          | some needsrevision =>
            storeTrade stub args
              (tradeText (ToLower rt (args.getD 0 "")) (ToLower rt (args.getD 1 ""))
                (ToLower rt (args.getD 2 "")) quantity (ToLower rt (args.getD 4 ""))
                (ToLower rt (args.getD 5 "")) (ToLower rt (args.getD 6 ""))
                (ToLower rt (args.getD 7 "")) (makeTimestamp rt) settled needsrevision) := by
  have h : ∀ i, i < 11 → ¬ (args.getD i "").length ≤ 0 := fun i hi hle =>
    hne i hi ((length_le_zero _).mp hle)
  unfold init_trade
  rw [if_neg (by simp [hlen]), if_neg (h 0 (by omega)), if_neg (h 1 (by omega)),
    if_neg (h 2 (by omega)), if_neg (h 3 (by omega)), if_neg (h 4 (by omega)),
    if_neg (h 5 (by omega)), if_neg (h 6 (by omega)), if_neg (h 7 (by omega)),
    if_neg (h 8 (by omega)), if_neg (h 9 (by omega)), if_neg (h 10 (by omega))]

/-- A valid request reaches the writes with the text built from it. -/
theorem init_trade_valid (rt : Runtime) (stub : ChaincodeStub) (args : List String)
    (h : Valid args) : init_trade rt stub args = storeTrade stub args (recordText rt args) := by
  obtain ⟨hlen, hne, h3, h9, h10⟩ := h
  rw [init_trade_nonempty rt stub args hlen hne]
  unfold recordText
  cases e3 : Atoi (args.getD 3 "") with
  | none => rw [e3] at h3; simp at h3
  | some q =>
    cases e9 : Atoi (args.getD 9 "") with
    | none => rw [e9] at h9; simp at h9
    | some s =>
      cases e10 : Atoi (args.getD 10 "") with
      | none => rw [e10] at h10; simp at h10
      | some n => rfl

/-- C1: for every ledger and every argument list whose length is not 11,
`init_trade` returns the argument-count error and the ledger after the call is
the ledger before it. -/
theorem init_trade_arg_count (rt : Runtime) (stub : ChaincodeStub) (args : List String)
    (h : args.length ≠ 11) :
    init_trade rt stub args =
      (Except.error "Incorrect number of arguments. Expecting 11", stub) := by
  unfold init_trade
  rw [if_pos h]

theorem init_trade_arg_count_witness :
    ["2021-01-01", "2021-01-02"].length ≠ 11 ∧
      init_trade sampleRuntime emptyStub ["2021-01-01", "2021-01-02"] =
        (Except.error "Incorrect number of arguments. Expecting 11", emptyStub) :=
  ⟨by decide, init_trade_arg_count sampleRuntime emptyStub _ (by decide)⟩

/-- C2: for every request of eleven fields in which a field at one of the
positions 0..8 is empty, `init_trade` fails with the error naming the 1-based
ordinal `i + 1` of the smallest such position `i`, and the ledger is left
unchanged. -/
theorem init_trade_empty_field (rt : Runtime) (stub : ChaincodeStub) (args : List String)
    (hlen : args.length = 11) (i : Nat) (hi : i ≤ 8) (hempty : args.getD i "" = "")
    (hfirst : ∀ j, j < i → args.getD j "" ≠ "") :
    init_trade rt stub args =
      (Except.error (ordinal (i + 1) ++ " argument must be a non-empty string"), stub) := by
  have h : ∀ j, j < i → ¬ (args.getD j "").length ≤ 0 := fun j hj hle =>
    hfirst j hj ((length_le_zero _).mp hle)
  have he : (args.getD i "").length ≤ 0 := (length_le_zero _).mpr hempty
  unfold init_trade
  rw [if_neg (by simp [hlen])]
  interval_cases i
  · rw [if_pos he]
    rfl
  · rw [if_neg (h 0 (by omega)), if_pos he]
    rfl
  · rw [if_neg (h 0 (by omega)), if_neg (h 1 (by omega)), if_pos he]
    rfl
  · rw [if_neg (h 0 (by omega)), if_neg (h 1 (by omega)), if_neg (h 2 (by omega)), if_pos he]
    rfl
  · rw [if_neg (h 0 (by omega)), if_neg (h 1 (by omega)), if_neg (h 2 (by omega)), if_neg (h 3 (by omega)), if_pos he]
    rfl
  · rw [if_neg (h 0 (by omega)), if_neg (h 1 (by omega)), if_neg (h 2 (by omega)), if_neg (h 3 (by omega)), if_neg (h 4 (by omega)), if_pos he]
    rfl
  · rw [if_neg (h 0 (by omega)), if_neg (h 1 (by omega)), if_neg (h 2 (by omega)), if_neg (h 3 (by omega)), if_neg (h 4 (by omega)), if_neg (h 5 (by omega)), if_pos he]
    rfl
  · rw [if_neg (h 0 (by omega)), if_neg (h 1 (by omega)), if_neg (h 2 (by omega)), if_neg (h 3 (by omega)), if_neg (h 4 (by omega)), if_neg (h 5 (by omega)), if_neg (h 6 (by omega)), if_pos he]
    rfl
  · rw [if_neg (h 0 (by omega)), if_neg (h 1 (by omega)), if_neg (h 2 (by omega)), if_neg (h 3 (by omega)), if_neg (h 4 (by omega)), if_neg (h 5 (by omega)), if_neg (h 6 (by omega)), if_neg (h 7 (by omega)), if_pos he]
    rfl

theorem init_trade_empty_field_witness :
    ["a", "b", "", "1", "", "f", "g", "h", "i", "0", "0"].length = 11 ∧
      init_trade sampleRuntime emptyStub ["a", "b", "", "1", "", "f", "g", "h", "i", "0", "0"] =
        (Except.error "3rd argument must be a non-empty string", emptyStub) :=
  ⟨by decide, init_trade_empty_field sampleRuntime emptyStub _ (by decide) 2 (by decide)
    (by decide) (by decide)⟩

/-- C3, as stated, fails: in this request of eleven fields the quantity at
position 3 is the only field that is not an integer, and the error names the
1st argument, which is empty, not the 4th. -/
theorem init_trade_non_numeric_counterexample :
    Atoi (["", "b", "c", "many", "e", "f", "g", "h", "i", "0", "0"].getD 3 "") = none ∧
      (init_trade sampleRuntime emptyStub
          ["", "b", "c", "many", "e", "f", "g", "h", "i", "0", "0"]).1 =
        Except.error "1st argument must be a non-empty string" := by
  decide

/-- C3, amended: for every request of eleven non-empty fields in which the
field at position 3, 9 or 10 is not accepted as an integer, `init_trade` fails
with the numeric-string error naming the ordinal (4th, 10th, 11th) of the first
such field in that order, the three errors are pairwise distinct, and the
ledger is left unchanged. -/
theorem init_trade_non_numeric (rt : Runtime) (stub : ChaincodeStub) (args : List String)
    (hlen : args.length = 11) (hne : ∀ i, i < 11 → args.getD i "" ≠ "") (p : Nat)
    (hp : p = 3 ∨ p = 9 ∨ p = 10) (hbad : Atoi (args.getD p "") = none)
    (hfirst : ∀ q, (q = 3 ∨ q = 9 ∨ q = 10) → q < p → Atoi (args.getD q "") ≠ none) :
    init_trade rt stub args =
        (Except.error (ordinal (p + 1) ++ " argument must be a numeric string"), stub) ∧
      ordinal 4 ++ " argument must be a numeric string" ≠
        ordinal 10 ++ " argument must be a numeric string" ∧
      ordinal 4 ++ " argument must be a numeric string" ≠
        ordinal 11 ++ " argument must be a numeric string" ∧
      ordinal 10 ++ " argument must be a numeric string" ≠
        ordinal 11 ++ " argument must be a numeric string" := by
  refine ⟨?_, by decide, by decide, by decide⟩
  rw [init_trade_nonempty rt stub args hlen hne]
  rcases hp with rfl | rfl | rfl
  · rw [hbad]
    rfl
  · cases e3 : Atoi (args.getD 3 "") with
    | none => exact absurd e3 (hfirst 3 (Or.inl rfl) (by omega))
    | some q =>
      simp only []
      rw [hbad]
      rfl
  · cases e3 : Atoi (args.getD 3 "") with
    | none => exact absurd e3 (hfirst 3 (Or.inl rfl) (by omega))
    | some q =>
      cases e9 : Atoi (args.getD 9 "") with
      | none => exact absurd e9 (hfirst 9 (Or.inr (Or.inl rfl)) (by omega))
      | some s =>
        simp only []
        rw [hbad]
        rfl

theorem init_trade_non_numeric_witness :
    ["a", "b", "c", "1", "e", "f", "g", "h", "i", "yes", "no"].length = 11 ∧
      init_trade sampleRuntime emptyStub
          ["a", "b", "c", "1", "e", "f", "g", "h", "i", "yes", "no"] =
        (Except.error "10th argument must be a numeric string", emptyStub) :=
  ⟨by decide,
    (init_trade_non_numeric sampleRuntime emptyStub _ (by decide) (by decide) 9
      (Or.inr (Or.inl rfl)) (by decide)
      (fun q hq hlt => by rcases hq with rfl | rfl | rfl <;> first | decide | omega)).1⟩

/-- C10: for every ledger and every key whose bytes the ledger yields,
`Query("query", [key])` returns exactly the bytes stored under the key, with
no error, and leaves the ledger unchanged. -/
theorem Query_returns_stored (stub : ChaincodeStub) (key v : String)
    (h : stub.GetState key = Except.ok (some v)) :
    Query stub "query" [key] = (Except.ok (some v), stub) ∧ stub.state key = some v := by
  constructor
  · unfold Query
    rw [if_neg (by simp), if_neg (by simp)]
    simp only [List.getD_cons_zero]
    rw [h]
  · unfold ChaincodeStub.GetState at h
    cases hg : stub.getError key with
    | some e => rw [hg] at h; cases h
    | none =>
      rw [hg] at h
      simp only [Except.ok.injEq] at h
      exact h

theorem Query_returns_stored_witness :
    (init emptyStub ["5"]).2.GetState "abc" = Except.ok (some "5") ∧
      Query (init emptyStub ["5"]).2 "query" ["abc"] =
        (Except.ok (some "5"), (init emptyStub ["5"]).2) :=
  ⟨by decide, (Query_returns_stored (init emptyStub ["5"]).2 "abc" "5" (by decide)).1⟩

/-! ## The writes of `init_trade` -/

theorem recordText_brace (rt : Runtime) (args : List String) :
    ∃ tl, (recordText rt args).data = '\x7b' :: tl := by
  unfold recordText
  rw [tradeText_eq]
  exact ⟨_, rfl⟩

theorem tradeText_brace (a b c : String) (q : Int) (d e f g : String) (ts s n : Int) :
    ∃ tl, (tradeText a b c q d e f g ts s n).data = '\x7b' :: tl := by
  rw [tradeText_eq]
  exact ⟨_, rfl⟩

theorem MarshalTrade_brace (t : Trade) : ∃ tl, (MarshalTrade t).data = '\x7b' :: tl := by
  rw [MarshalTrade_eq]
  exact ⟨_, rfl⟩

theorem PutState_ok (stub : ChaincodeStub) (key value : String)
    (h : stub.putError key value = none) :
    stub.PutState key value = Except.ok (written stub key value) := by
  unfold ChaincodeStub.PutState
  rw [h]
  rfl

theorem PutState_error (stub : ChaincodeStub) (key value e : String)
    (h : stub.putError key value = some e) : stub.PutState key value = Except.error e := by
  unfold ChaincodeStub.PutState
  rw [h]

theorem GetState_ok (stub : ChaincodeStub) (key : String) (h : stub.getError key = none) :
    stub.GetState key = Except.ok (stub.state key) := by
  unfold ChaincodeStub.GetState
  rw [h]

theorem GetState_error (stub : ChaincodeStub) (key e : String) (h : stub.getError key = some e) :
    stub.GetState key = Except.error e := by
  unfold ChaincodeStub.GetState
  rw [h]

/-- The writes of `init_trade` when the record write and the index read
succeed: no error is returned whether or not the index write succeeds. -/
theorem storeTrade_ok (stub : ChaincodeStub) (args : List String) (str : String)
    (hput : stub.putError (args.getD 0 "") str = none)
    (hget : stub.getError tradeIndexStr = none) :
    storeTrade stub args str =
      (Except.ok none,
        match stub.putError tradeIndexStr (nextIndex (written stub (args.getD 0 "") str) args) with
        | some _ => written stub (args.getD 0 "") str
        | none =>
          written (written stub (args.getD 0 "") str) tradeIndexStr
            (nextIndex (written stub (args.getD 0 "") str) args)) := by
  unfold storeTrade
  rw [PutState_ok _ _ _ hput]
  simp only []
  rw [GetState_ok _ _ (by exact hget)]
  simp only []
  cases hp : stub.putError tradeIndexStr (nextIndex (written stub (args.getD 0 "") str) args) with
  | some e =>
    rw [PutState_error _ _ _ e (by exact hp)]
  | none =>
    rw [PutState_ok _ _ _ (by exact hp)]
    rfl

set_option maxRecDepth 100000 in
/-- C4, as stated, fails: for this valid request, whose first field is the
index key, every ledger operation succeeds and the call returns no payload and
no error, yet the value under the request's first field is the index, not the
record text. -/
theorem init_trade_stores_record_counterexample :
    Valid indexKeyRequest ∧
      (init_trade sampleRuntime emptyStub indexKeyRequest).1 = Except.ok none ∧
      (init_trade sampleRuntime emptyStub indexKeyRequest).2.state (indexKeyRequest.getD 0 "") =
        some "[\"corr2\"]" ∧
      (init_trade sampleRuntime emptyStub indexKeyRequest).2.state (indexKeyRequest.getD 0 "") ≠
        some (recordText sampleRuntime indexKeyRequest) := by
  decide

/-- A valid request whose key is not the index key leaves its record text
under its key when the record write and the index read succeed. -/
theorem init_trade_record_state (rt : Runtime) (stub : ChaincodeStub) (args : List String)
    (h : Valid args) (hkey : args.getD 0 "" ≠ tradeIndexStr)
    (hput : stub.putError (args.getD 0 "") (recordText rt args) = none)
    (hget : stub.getError tradeIndexStr = none) :
    (init_trade rt stub args).1 = Except.ok none ∧
      (init_trade rt stub args).2.state (args.getD 0 "") = some (recordText rt args) := by
  rw [init_trade_valid rt stub args h, storeTrade_ok stub args _ hput hget]
  refine ⟨rfl, ?_⟩
  simp only []
  split
  · simp only [written, if_true]
  · simp only [written, if_neg hkey, if_true]

/-- C4, amended: for every ledger and every valid creation request whose
first field is not the index key, when the write of the record and the read of
the index succeed, the value stored under the request's first field after
`init_trade` is the record text built from the request, and the call returns
no payload and no error. -/
theorem init_trade_stores_record (rt : Runtime) (stub : ChaincodeStub) (args : List String)
    (h : Valid args) (hkey : args.getD 0 "" ≠ tradeIndexStr)
    (hput : stub.putError (args.getD 0 "") (recordText rt args) = none)
    (hget : stub.getError tradeIndexStr = none) :
    (init_trade rt stub args).1 = Except.ok none ∧
      (init_trade rt stub args).2.state (args.getD 0 "") = some (recordText rt args) := by
  have hrun := init_trade_record_state rt stub args h hkey hput hget
  exact ⟨hrun.1, hrun.2⟩

theorem init_trade_stores_record_witness :
    Valid sampleRequest ∧
      (init_trade sampleRuntime emptyStub sampleRequest).1 = Except.ok none ∧
      (init_trade sampleRuntime emptyStub sampleRequest).2.state (sampleRequest.getD 0 "") =
        some (recordText sampleRuntime sampleRequest) :=
  ⟨by decide, init_trade_stores_record sampleRuntime emptyStub sampleRequest (by decide)
    (by decide) rfl rfl⟩

/-! ## The index under the writes of `init_trade` and `set_user` -/

theorem decodedIndex_written_other (stub : ChaincodeStub) (key value : String)
    (h : key ≠ tradeIndexStr) : decodedIndex (written stub key value) = decodedIndex stub := by
  unfold decodedIndex written
  simp only []
  rw [if_neg (Ne.symm h)]

theorem decodedIndex_written_brace (stub : ChaincodeStub) (value : String) (tl : List Char)
    (h : value.data = '\x7b' :: tl) :
    decodedIndex (written stub tradeIndexStr value) = [] := by
  unfold decodedIndex written
  simp only [if_true, bytes, Option.getD_some]
  rw [UnmarshalStrings_brace value tl h]
  rfl

theorem decodedIndex_written_next (stub stub1 : ChaincodeStub) (args : List String) :
    decodedIndex (written stub tradeIndexStr (nextIndex stub1 args)) =
      decodedIndex stub1 ++ [args.getD 8 ""] := by
  unfold decodedIndex written nextIndex
  simp only [if_true, bytes, Option.getD_some]
  rw [UnmarshalStrings_MarshalStrings]
  rfl

/-- The ledger after the writes of `init_trade` is the ledger before, the
ledger with the record written, or that ledger with the index written. -/
theorem storeTrade_state (stub : ChaincodeStub) (args : List String) (str : String) :
    (storeTrade stub args str).2 = stub ∨
      (storeTrade stub args str).2 = written stub (args.getD 0 "") str ∨
      (storeTrade stub args str).2 =
        written (written stub (args.getD 0 "") str) tradeIndexStr
          (nextIndex (written stub (args.getD 0 "") str) args) := by
  unfold storeTrade
  cases hp : stub.putError (args.getD 0 "") str with
  | some e =>
    rw [PutState_error _ _ _ e hp]
    left; rfl
  | none =>
    rw [PutState_ok _ _ _ hp]
    simp only []
    cases hg : (written stub (args.getD 0 "") str).getError tradeIndexStr with
    | some e =>
      rw [GetState_error _ _ e hg]
      right; left; rfl
    | none =>
      rw [GetState_ok _ _ hg]
      simp only []
      cases hp2 : (written stub (args.getD 0 "") str).putError tradeIndexStr
          (nextIndex (written stub (args.getD 0 "") str) args) with
      | some e =>
        rw [PutState_error _ _ _ e (by exact hp2)]
        right; left; rfl
      | none =>
        rw [PutState_ok _ _ _ (by exact hp2)]
        right; right; rfl

/-- Either `init_trade` rejects the request and leaves the ledger alone, or it
goes on to the writes with a text that opens with a brace. -/
theorem init_trade_cases (rt : Runtime) (stub : ChaincodeStub) (args : List String) :
    (init_trade rt stub args).2 = stub ∨
      ∃ str tl, str.data = '\x7b' :: tl ∧ init_trade rt stub args = storeTrade stub args str := by
  unfold init_trade
  by_cases h0 : args.length ≠ 11
  · rw [if_pos h0]; left; rfl
  rw [if_neg h0]
  by_cases e0 : (args.getD 0 "").length ≤ 0
  · rw [if_pos e0]; left; rfl
  rw [if_neg e0]
  by_cases e1 : (args.getD 1 "").length ≤ 0
  · rw [if_pos e1]; left; rfl
  rw [if_neg e1]
  by_cases e2 : (args.getD 2 "").length ≤ 0
  · rw [if_pos e2]; left; rfl
  rw [if_neg e2]
  by_cases e3 : (args.getD 3 "").length ≤ 0
  · rw [if_pos e3]; left; rfl
  rw [if_neg e3]
  by_cases e4 : (args.getD 4 "").length ≤ 0
  · rw [if_pos e4]; left; rfl
  rw [if_neg e4]
  by_cases e5 : (args.getD 5 "").length ≤ 0
  · rw [if_pos e5]; left; rfl
  rw [if_neg e5]
  by_cases e6 : (args.getD 6 "").length ≤ 0
  · rw [if_pos e6]; left; rfl
  rw [if_neg e6]
  by_cases e7 : (args.getD 7 "").length ≤ 0
  · rw [if_pos e7]; left; rfl
  rw [if_neg e7]
  by_cases e8 : (args.getD 8 "").length ≤ 0
  · rw [if_pos e8]; left; rfl
  rw [if_neg e8]
  by_cases e9 : (args.getD 9 "").length ≤ 0
  · rw [if_pos e9]; left; rfl
  rw [if_neg e9]
  by_cases e10 : (args.getD 10 "").length ≤ 0
  · rw [if_pos e10]; left; rfl
  rw [if_neg e10]
  simp only []
  cases Atoi (args.getD 3 "") with
  | none => left; rfl
  | some q =>
    cases Atoi (args.getD 9 "") with
    | none => left; rfl
    | some s =>
      cases Atoi (args.getD 10 "") with
      | none => left; rfl
      | some n =>
        right
        obtain ⟨tl, htl⟩ := tradeText_brace (ToLower rt (args.getD 0 "")) (ToLower rt (args.getD 1 ""))
          (ToLower rt (args.getD 2 "")) q (ToLower rt (args.getD 4 ""))
          (ToLower rt (args.getD 5 "")) (ToLower rt (args.getD 6 ""))
          (ToLower rt (args.getD 7 "")) (makeTimestamp rt) s n
        exact ⟨_, tl, htl, rfl⟩

/-- The ledger after `set_user` is the ledger before or the ledger with a
written record under the key. -/
theorem set_user_state (stub : ChaincodeStub) (args : List String) :
    (set_user stub args).2 = stub ∨
      ∃ t, (set_user stub args).2 = written stub (args.getD 0 "") (MarshalTrade t) := by
  unfold set_user
  split_ifs
  · left; rfl
  · cases hg : stub.getError (args.getD 0 "") with
    | some e =>
      rw [GetState_error _ _ e hg]
      left; rfl
    | none =>
      rw [GetState_ok _ _ hg]
      simp only []
      cases hp : stub.putError (args.getD 0 "")
          (MarshalTrade { UnmarshalTrade (bytes (stub.state (args.getD 0 ""))) Trade.zero with
            User := args.getD 1 "" }) with
      | some e =>
        rw [PutState_error _ _ _ e hp]
        left; rfl
      | none =>
        rw [PutState_ok _ _ _ hp]
        right
        exact ⟨_, rfl⟩

/-- Writing a text that opens with a brace leaves the decoded index as it was
or empties it. -/
theorem decodedIndex_written_record (stub : ChaincodeStub) (key value : String) (tl : List Char)
    (h : value.data = '\x7b' :: tl) :
    decodedIndex (written stub key value) = decodedIndex stub ∨
      decodedIndex (written stub key value) = [] := by
  by_cases hk : key = tradeIndexStr
  · right
    rw [hk]
    exact decodedIndex_written_brace stub value tl h
  · left
    exact decodedIndex_written_other stub key value hk

/-- One call adds to the decoded index at most the field at position 8 of a
creation request. -/
theorem step_index (stub : ChaincodeStub) (c : Call) (e : String)
    (he : e ∈ decodedIndex (step stub c)) :
    e ∈ decodedIndex stub ∨ ∃ rt args, c = Call.trade rt args ∧ args.getD 8 "" = e := by
  cases c with
  | trade rt args =>
    simp only [step] at he
    rcases init_trade_cases rt stub args with h | ⟨str, tl, htl, h⟩
    · rw [h] at he
      exact Or.inl he
    · rw [h] at he
      rcases storeTrade_state stub args str with h1 | h1 | h1
      · rw [h1] at he
        exact Or.inl he
      · rw [h1] at he
        rcases decodedIndex_written_record stub (args.getD 0 "") str tl htl with h2 | h2
        · rw [h2] at he
          exact Or.inl he
        · rw [h2] at he
          simp at he
      · rw [h1, decodedIndex_written_next] at he
        rcases List.mem_append.mp he with he | he
        · rcases decodedIndex_written_record stub (args.getD 0 "") str tl htl with h2 | h2
          · rw [h2] at he
            exact Or.inl he
          · rw [h2] at he
            simp at he
        · right
          simp only [List.mem_singleton] at he
          exact ⟨rt, args, rfl, he.symm⟩
  | user args =>
    simp only [step] at he
    rcases set_user_state stub args with h | ⟨t, h⟩
    · rw [h] at he
      exact Or.inl he
    · rw [h] at he
      obtain ⟨tl, htl⟩ := MarshalTrade_brace t
      rcases decodedIndex_written_record stub (args.getD 0 "") _ tl htl with h2 | h2
      · rw [h2] at he
        exact Or.inl he
      · rw [h2] at he
        simp at he

theorem run_index (calls : List Call) (stub : ChaincodeStub) (e : String)
    (he : e ∈ decodedIndex (run stub calls)) :
    e ∈ decodedIndex stub ∨ ∃ rt args, Call.trade rt args ∈ calls ∧ args.getD 8 "" = e := by
  induction calls generalizing stub with
  | nil => exact Or.inl he
  | cons c rest ih =>
    rcases ih (step stub c) he with h | ⟨rt, args, hm, h8⟩
    · rcases step_index stub c e h with h1 | ⟨rt, args, hc, h8⟩
      · exact Or.inl h1
      · exact Or.inr ⟨rt, args, by rw [hc]; exact List.mem_cons_self _ _, h8⟩
    · exact Or.inr ⟨rt, args, List.mem_cons_of_mem _ hm, h8⟩

/-- After a successful `init` the index key holds the text of a nil list. -/
theorem init_ok (stub : ChaincodeStub) (args : List String)
    (h : (init stub args).1 = Except.ok none) :
    (init stub args).2.state tradeIndexStr = some "null" ∧
      (init stub args).2.getError = stub.getError ∧
      (init stub args).2.putError = stub.putError := by
  unfold init at h ⊢
  by_cases hlen : args.length ≠ 1
  · rw [if_pos hlen] at h
    cases h
  · rw [if_neg hlen] at h ⊢
    cases ha : Atoi (args.getD 0 "") with
    | none => rw [ha] at h; cases h
    | some n =>
      rw [ha] at h
      simp only [] at h ⊢
      cases hp : stub.putError "abc" (Itoa n) with
      | some e =>
        rw [PutState_error _ _ _ e hp] at h
        cases h
      | none =>
        rw [PutState_ok _ _ _ hp] at h ⊢
        simp only [] at h ⊢
        cases hp2 : (written stub "abc" (Itoa n)).putError tradeIndexStr (MarshalStrings none) with
        | some e =>
          rw [PutState_error _ _ _ e hp2] at h
          cases h
        | none =>
          rw [PutState_ok _ _ _ hp2]
          exact ⟨by simp [written, MarshalStrings], rfl, rfl⟩

theorem decodedIndex_init (stub : ChaincodeStub) (args : List String)
    (h : (init stub args).1 = Except.ok none) : decodedIndex (init stub args).2 = [] := by
  unfold decodedIndex
  rw [(init_ok stub args h).1]
  decide

/-! ## The index after a sequence of calls -/

theorem written_neverFails (stub : ChaincodeStub) (key value : String) (h : NeverFails stub) :
    NeverFails (written stub key value) := h

/-- On a ledger that fails nothing a valid request whose key is not the index
key adds its field at position 8 at the end of the decoded index. -/
theorem init_trade_appends (rt : Runtime) (stub : ChaincodeStub) (args : List String)
    (hnf : NeverFails stub) (h : Valid args) (hkey : args.getD 0 "" ≠ tradeIndexStr) :
    (init_trade rt stub args).1 = Except.ok none ∧
      NeverFails (init_trade rt stub args).2 ∧
      decodedIndex (init_trade rt stub args).2 = decodedIndex stub ++ [args.getD 8 ""] := by
  rw [init_trade_valid rt stub args h, storeTrade_ok stub args _ (hnf.2 _ _) (hnf.1 _)]
  simp only []
  rw [hnf.2]
  simp only []
  refine ⟨by first | rfl | trivial, written_neverFails _ _ _ (written_neverFails _ _ _ hnf), ?_⟩
  rw [decodedIndex_written_next, decodedIndex_written_other _ _ _ hkey]

theorem runTrades_index (calls : List (Runtime × List String)) (stub : ChaincodeStub)
    (hnf : NeverFails stub)
    (hcalls : ∀ c ∈ calls, Valid c.2 ∧ c.2.getD 0 "" ≠ tradeIndexStr) :
    decodedIndex (runTrades stub calls) =
      decodedIndex stub ++ calls.map fun c => c.2.getD 8 "" := by
  induction calls generalizing stub with
  | nil => simp [runTrades]
  | cons c rest ih =>
    obtain ⟨hv, hk⟩ := hcalls c (List.mem_cons_self _ _)
    obtain ⟨_, hnf1, hidx⟩ := init_trade_appends c.1 stub c.2 hnf hv hk
    rw [runTrades, ih _ hnf1 (fun x hx => hcalls x (List.mem_cons_of_mem _ hx)), hidx]
    simp

set_option maxRecDepth 100000 in
/-- C5, as stated, fails: after a successful `init`, these two creation calls
both return without error, yet the decoded index has one entry, not two: the
second call stores its record under the index key. -/
theorem index_after_creations_counterexample :
    (init emptyStub ["5"]).1 = Except.ok none ∧
      (init_trade sampleRuntime (init emptyStub ["5"]).2 sampleRequest).1 = Except.ok none ∧
      (init_trade sampleRuntime
          (init_trade sampleRuntime (init emptyStub ["5"]).2 sampleRequest).2
          indexKeyRequest).1 = Except.ok none ∧
      decodedIndex (runTrades (init emptyStub ["5"]).2
          [(sampleRuntime, sampleRequest), (sampleRuntime, indexKeyRequest)]) = ["corr2"] := by
  decide

/-- C5, amended: starting from the ledger left by a successful `init`, on a
ledger whose reads and writes succeed, for every `N` and every sequence of `N`
`init_trade` calls that pass validation and whose first field is not the index
key, the list decoded from the value under `_tradeindex` has length exactly
`N` and its entries are the calls' fields at position 8, in the order of the
calls. -/
theorem index_after_creations (stub0 : ChaincodeStub) (a : String) (hnf : NeverFails stub0)
    (hinit : (init stub0 [a]).1 = Except.ok none) (calls : List (Runtime × List String))
    (hcalls : ∀ c ∈ calls, Valid c.2 ∧ c.2.getD 0 "" ≠ tradeIndexStr) :
    decodedIndex (runTrades (init stub0 [a]).2 calls) = calls.map (fun c => c.2.getD 8 "") ∧
      (decodedIndex (runTrades (init stub0 [a]).2 calls)).length = calls.length := by
  obtain ⟨_, hg, hp⟩ := init_ok stub0 [a] hinit
  have hnf1 : NeverFails (init stub0 [a]).2 := by
    constructor
    · intro k; rw [hg]; exact hnf.1 k
    · intro k v; rw [hp]; exact hnf.2 k v
  have h := runTrades_index calls _ hnf1 hcalls
  rw [decodedIndex_init stub0 [a] hinit, List.nil_append] at h
  rw [h]
  exact ⟨rfl, by simp⟩

theorem index_after_creations_witness :
    decodedIndex (runTrades (init emptyStub ["5"]).2
        [(sampleRuntime, sampleRequest), (sampleRuntime, sampleRequest)]) =
        ["corr1", "corr1"] ∧
      (decodedIndex (runTrades (init emptyStub ["5"]).2
        [(sampleRuntime, sampleRequest), (sampleRuntime, sampleRequest)])).length = 2 :=
  index_after_creations emptyStub "5" ⟨fun _ => rfl, fun _ _ => rfl⟩ (by decide)
    [(sampleRuntime, sampleRequest), (sampleRuntime, sampleRequest)] (by decide)

set_option maxRecDepth 100000 in
/-- C6, as stated, fails: after a successful `init` and the creation request of
the specification's scenario the index holds the entry `corr1`, and the ledger
holds nothing under the key `corr1`. -/
theorem index_entries_counterexample :
    (init emptyStub ["5"]).1 = Except.ok none ∧
      "corr1" ∈ decodedIndex
        (run (init emptyStub ["5"]).2 [Call.trade sampleRuntime sampleRequest]) ∧
      (run (init emptyStub ["5"]).2 [Call.trade sampleRuntime sampleRequest]).state "corr1" =
        none := by
  decide

/-- C6, amended: in every state reachable from a successful `init` by any
sequence of `init_trade` and `set_user` calls, every entry of the list stored
under the index key is the field at position 8 of one of the `init_trade`
requests of the sequence. -/
theorem index_entries (stub0 : ChaincodeStub) (a : String)
    (hinit : (init stub0 [a]).1 = Except.ok none) (calls : List Call) (e : String)
    (he : e ∈ decodedIndex (run (init stub0 [a]).2 calls)) :
    ∃ rt args, Call.trade rt args ∈ calls ∧ args.getD 8 "" = e := by
  rcases run_index calls _ e he with h | h
  · rw [decodedIndex_init stub0 [a] hinit] at h
    simp at h
  · exact h

set_option maxRecDepth 100000 in
theorem index_entries_witness :
    ∃ rt args,
      Call.trade rt args ∈
          [Call.user ["2021-01-01", "bob"], Call.trade sampleRuntime sampleRequest,
            Call.user ["2021-01-01", "bob"]] ∧
        args.getD 8 "" = "corr1" :=
  index_entries emptyStub "5" (by decide)
    [Call.user ["2021-01-01", "bob"], Call.trade sampleRuntime sampleRequest,
      Call.user ["2021-01-01", "bob"]] "corr1" (by decide)

/-! ## Decoding the stored record -/

theorem plain_of_allDigits (l : List Char) (h : AllDigits l) : Plain l := by
  intro c hc
  have hd := h c hc
  unfold digitVal at hd
  split_ifs at hd with h1
  · refine ⟨?_, ?_, by omega⟩
    · rintro rfl
      revert h1
      decide
    · rintro rfl
      revert h1
      decide
  · simp at hd

theorem plain_formatInt (i : Int) : Plain (formatInt i) := by
  cases i with
  | ofNat n => exact plain_of_allDigits _ (allDigits_natDigits _ _)
  | negSucc n =>
    intro c hc
    simp only [formatInt, List.mem_cons] at hc
    rcases hc with rfl | hc
    · decide
    · exact plain_of_allDigits _ (allDigits_natDigits _ _) c hc

/-- What the text of line 251 decodes to when its text fields stand for
themselves: the text fields and the quantity are stored, the three quoted
integers are stepped over. -/
theorem UnmarshalTrade_tradeText (a b c : String) (q : Int) (d e f g : String) (ts s n : Int)
    (ha : Plain a.data) (hb : Plain b.data) (hc : Plain c.data) (hd : Plain d.data)
    (he : Plain e.data) (hf : Plain f.data) (hg : Plain g.data) (hq : Int64 q) (t0 : Trade) :
    UnmarshalTrade (tradeText a b c q d e f g ts s n) t0 =
      { t0 with TradeDate := a, ValueDate := b, Operation := c, Quantity := q, Security := d,
                Price := e, Counterparty := f, User := g } := by
  have hp := parse_object [' '] (by intro x hx; simpa using hx)
    (textItems a b c q d e f g ts s n) (by simp [textItems])
    (by
      intro m hm
      simp only [textItems, List.mem_cons, List.mem_singleton, List.not_mem_nil, or_false] at hm
      rcases hm with rfl | rfl | rfl | rfl | rfl | rfl | rfl | rfl | rfl | rfl | rfl
      · exact ⟨by dsimp only; unfold Plain; decide, ha⟩
      · exact ⟨by dsimp only; unfold Plain; decide, hb⟩
      · exact ⟨by dsimp only; unfold Plain; decide, hc⟩
      · exact ⟨by dsimp only; unfold Plain; decide, trivial⟩
      · exact ⟨by dsimp only; unfold Plain; decide, hd⟩
      · exact ⟨by dsimp only; unfold Plain; decide, he⟩
      · exact ⟨by dsimp only; unfold Plain; decide, hf⟩
      · exact ⟨by dsimp only; unfold Plain; decide, hg⟩
      · exact ⟨by dsimp only; unfold Plain; decide, plain_formatInt ts⟩
      · exact ⟨by dsimp only; unfold Plain; decide, plain_formatInt s⟩
      · exact ⟨by dsimp only; unfold Plain; decide, plain_formatInt n⟩)
  unfold UnmarshalTrade
  rw [tradeText_eq, hp]
  simp only []
  rw [fold_text]
  simp only [storeInt, ParseInt_formatInt q hq.1 hq.2]

theorem Atoi_range (s : String) (i : Int) (h : Atoi s = some i) : Int64 i :=
  ParseInt_range _ _ h

theorem Query_ok (stub : ChaincodeStub) (key : String) (h : stub.getError key = none) :
    Query stub "query" [key] = (Except.ok (stub.state key), stub) := by
  unfold Query
  rw [if_neg (by simp), if_neg (by simp)]
  simp only [List.getD_cons_zero]
  rw [GetState_ok _ _ h]

/-- The calls of `init_trade` leave the peer's failures as they are. -/
theorem storeTrade_getError (stub : ChaincodeStub) (args : List String) (str : String) :
    (storeTrade stub args str).2.getError = stub.getError := by
  rcases storeTrade_state stub args str with h | h | h <;> rw [h] <;> rfl

set_option maxRecDepth 100000 in
/-- C7, as stated, fails.  For the first request, with an upper-case operation
and the settled flag 1, the creation succeeds and the bytes `Query` returns
decode to a record whose operation is `buy`, not the input `BUY`, and whose
settled flag is 0, not the 1 parsed from position 9.  For the second request,
whose user contains a double quote, the returned bytes decode to the zero
record. -/
theorem query_after_create_counterexample :
    (init_trade sampleRuntime emptyStub upperRequest).1 = Except.ok none ∧
      (Query (init_trade sampleRuntime emptyStub upperRequest).2 "query"
          [upperRequest.getD 0 ""]).1 = Except.ok (some (recordText sampleRuntime upperRequest)) ∧
      (UnmarshalTrade (recordText sampleRuntime upperRequest) Trade.zero).Operation = "buy" ∧
      upperRequest.getD 2 "" = "BUY" ∧
      (UnmarshalTrade (recordText sampleRuntime upperRequest) Trade.zero).Settled = 0 ∧
      Atoi (upperRequest.getD 9 "") = some 1 ∧
      (init_trade sampleRuntime emptyStub quoteRequest).1 = Except.ok none ∧
      (Query (init_trade sampleRuntime emptyStub quoteRequest).2 "query"
          [quoteRequest.getD 0 ""]).1 = Except.ok (some (recordText sampleRuntime quoteRequest)) ∧
      UnmarshalTrade (recordText sampleRuntime quoteRequest) Trade.zero = Trade.zero := by
  decide

/-- C7, amended: for every valid creation request whose first field is not the
index key and whose lower-cased text fields contain no double quote, backslash
or control character, when the ledger operations succeed, the bytes `Query`
returns for the storage key decode to a record whose tradeDate, valueDate,
operation, security, price, counterparty and user are the lower-cased input
fields and whose quantity is the integer parsed from position 3. -/
theorem query_after_create (rt : Runtime) (stub : ChaincodeStub) (args : List String)
    (h : Valid args) (hkey : args.getD 0 "" ≠ tradeIndexStr)
    (hput : stub.putError (args.getD 0 "") (recordText rt args) = none)
    (hget : stub.getError tradeIndexStr = none)
    (hread : stub.getError (args.getD 0 "") = none)
    (hplain : ∀ i, i ∈ [0, 1, 2, 4, 5, 6, 7] → Plain (ToLower rt (args.getD i "")).data) :
    ∃ b, (Query (init_trade rt stub args).2 "query" [args.getD 0 ""]).1 = Except.ok (some b) ∧
      (UnmarshalTrade b Trade.zero).TradeDate = ToLower rt (args.getD 0 "") ∧
      (UnmarshalTrade b Trade.zero).ValueDate = ToLower rt (args.getD 1 "") ∧
      (UnmarshalTrade b Trade.zero).Operation = ToLower rt (args.getD 2 "") ∧
      (UnmarshalTrade b Trade.zero).Security = ToLower rt (args.getD 4 "") ∧
      (UnmarshalTrade b Trade.zero).Price = ToLower rt (args.getD 5 "") ∧
      (UnmarshalTrade b Trade.zero).Counterparty = ToLower rt (args.getD 6 "") ∧
      (UnmarshalTrade b Trade.zero).User = ToLower rt (args.getD 7 "") ∧
      Atoi (args.getD 3 "") = some (UnmarshalTrade b Trade.zero).Quantity := by
  obtain ⟨_, hstate⟩ := init_trade_record_state rt stub args h hkey hput hget
  have hge : (init_trade rt stub args).2.getError = stub.getError := by
    rw [init_trade_valid rt stub args h]
    exact storeTrade_getError _ _ _
  have hq := Query_ok (init_trade rt stub args).2 (args.getD 0 "") (by rw [hge]; exact hread)
  refine ⟨recordText rt args, by rw [hq, hstate], ?_⟩
  obtain ⟨_, _, h3, _, _⟩ := h
  cases e3 : Atoi (args.getD 3 "") with
  | none => rw [e3] at h3; simp at h3
  | some q =>
    have hdec : UnmarshalTrade (recordText rt args) Trade.zero = _ :=
      UnmarshalTrade_tradeText _ _ _ ((Atoi (args.getD 3 "")).getD 0) _ _ _ _ (makeTimestamp rt)
        ((Atoi (args.getD 9 "")).getD 0) ((Atoi (args.getD 10 "")).getD 0)
        (hplain 0 (by simp)) (hplain 1 (by simp)) (hplain 2 (by simp)) (hplain 4 (by simp))
        (hplain 5 (by simp)) (hplain 6 (by simp)) (hplain 7 (by simp))
        (by rw [e3]; exact Atoi_range _ _ e3) Trade.zero
    rw [hdec, e3]
    exact ⟨rfl, rfl, rfl, rfl, rfl, rfl, rfl, rfl⟩

set_option maxRecDepth 100000 in
theorem query_after_create_witness :
    ∃ b, (Query (init_trade sampleRuntime emptyStub upperRequest).2 "query"
          [upperRequest.getD 0 ""]).1 = Except.ok (some b) ∧
      (UnmarshalTrade b Trade.zero).TradeDate = ToLower sampleRuntime (upperRequest.getD 0 "") ∧
      (UnmarshalTrade b Trade.zero).ValueDate = ToLower sampleRuntime (upperRequest.getD 1 "") ∧
      (UnmarshalTrade b Trade.zero).Operation = ToLower sampleRuntime (upperRequest.getD 2 "") ∧
      (UnmarshalTrade b Trade.zero).Security = ToLower sampleRuntime (upperRequest.getD 4 "") ∧
      (UnmarshalTrade b Trade.zero).Price = ToLower sampleRuntime (upperRequest.getD 5 "") ∧
      (UnmarshalTrade b Trade.zero).Counterparty =
        ToLower sampleRuntime (upperRequest.getD 6 "") ∧
      (UnmarshalTrade b Trade.zero).User = ToLower sampleRuntime (upperRequest.getD 7 "") ∧
      Atoi (upperRequest.getD 3 "") = some (UnmarshalTrade b Trade.zero).Quantity :=
  query_after_create sampleRuntime emptyStub upperRequest (by decide) (by decide) rfl rfl rfl
    (by unfold Plain; decide)

set_option maxRecDepth 100000 in
/-- C8, as stated, fails: for the creation request of the specification's
scenario, decoding the text written at line 251 and encoding the decoded
record gives another text, whether the record is encoded as `set_user` does
(`json.Marshal`) or as line 251 does. -/
theorem record_roundtrip_counterexample :
    Valid sampleRequest ∧
      MarshalTrade (UnmarshalTrade (recordText sampleRuntime sampleRequest) Trade.zero) ≠
        recordText sampleRuntime sampleRequest ∧
      tradeText (UnmarshalTrade (recordText sampleRuntime sampleRequest) Trade.zero).TradeDate
          (UnmarshalTrade (recordText sampleRuntime sampleRequest) Trade.zero).ValueDate
          (UnmarshalTrade (recordText sampleRuntime sampleRequest) Trade.zero).Operation
          (UnmarshalTrade (recordText sampleRuntime sampleRequest) Trade.zero).Quantity
          (UnmarshalTrade (recordText sampleRuntime sampleRequest) Trade.zero).Security
          (UnmarshalTrade (recordText sampleRuntime sampleRequest) Trade.zero).Price
          (UnmarshalTrade (recordText sampleRuntime sampleRequest) Trade.zero).Counterparty
          (UnmarshalTrade (recordText sampleRuntime sampleRequest) Trade.zero).User
          (UnmarshalTrade (recordText sampleRuntime sampleRequest) Trade.zero).Timestamp
          (UnmarshalTrade (recordText sampleRuntime sampleRequest) Trade.zero).Settled
          (UnmarshalTrade (recordText sampleRuntime sampleRequest) Trade.zero).NeedsRevision ≠
        recordText sampleRuntime sampleRequest := by
  decide

/-- C8, amended: for every creation request, the text that `json.Marshal`
gives for the record decoded from the text of line 251 is round-trip stable:
decoding it gives that record again, and encoding the result gives the same
text. -/
theorem record_roundtrip (rt : Runtime) (args : List String) :
    UnmarshalTrade (MarshalTrade (UnmarshalTrade (recordText rt args) Trade.zero)) Trade.zero =
        UnmarshalTrade (recordText rt args) Trade.zero ∧
      MarshalTrade
          (UnmarshalTrade (MarshalTrade (UnmarshalTrade (recordText rt args) Trade.zero))
            Trade.zero) =
        MarshalTrade (UnmarshalTrade (recordText rt args) Trade.zero) := by
  have h := UnmarshalTrade_MarshalTrade (UnmarshalTrade (recordText rt args) Trade.zero)
    (UnmarshalTrade_inRange _ _ zero_inRange) Trade.zero
  exact ⟨h, by rw [h]⟩

set_option maxRecDepth 100000 in
/-- C9, as stated, fails: the ledger holds the record of the specification's
scenario under its key, the peer refuses the write, and `set_user` returns the
error and leaves the record as it was. -/
theorem set_user_counterexample :
    refusingStub.GetState "2021-01-01" =
        Except.ok (some (recordText sampleRuntime sampleRequest)) ∧
      (UnmarshalTrade (recordText sampleRuntime sampleRequest) Trade.zero).User = "alice" ∧
      (set_user refusingStub ["2021-01-01", "bob"]).1 = Except.error "write refused" ∧
      (set_user refusingStub ["2021-01-01", "bob"]).2.state "2021-01-01" =
        some (recordText sampleRuntime sampleRequest) := by
  decide

/-- C9, amended: for every ledger and every key under which the ledger yields
bytes that decode to a record `r`, when the write back succeeds,
`set_user(key, newUser)` succeeds and leaves under the same key a text that
decodes to `r` with only the user field replaced by `newUser`, and a later
`Query` of the key returns that text. -/
theorem set_user_rewrites_user (stub : ChaincodeStub) (key newUser b : String)
    (hget : stub.GetState key = Except.ok (some b))
    (hput : stub.putError key
      (MarshalTrade { UnmarshalTrade b Trade.zero with User := newUser }) = none) :
    (set_user stub [key, newUser]).1 = Except.ok none ∧
      (set_user stub [key, newUser]).2.state key =
        some (MarshalTrade { UnmarshalTrade b Trade.zero with User := newUser }) ∧
      UnmarshalTrade (MarshalTrade { UnmarshalTrade b Trade.zero with User := newUser })
          Trade.zero = { UnmarshalTrade b Trade.zero with User := newUser } ∧
      (Query (set_user stub [key, newUser]).2 "query" [key]).1 =
        Except.ok (some (MarshalTrade { UnmarshalTrade b Trade.zero with User := newUser })) := by
  have hge : stub.getError key = none := by
    unfold ChaincodeStub.GetState at hget
    cases hg : stub.getError key with
    | some e => rw [hg] at hget; cases hget
    | none => rfl
  have hset : set_user stub [key, newUser] =
      (Except.ok none,
        written stub key (MarshalTrade { UnmarshalTrade b Trade.zero with User := newUser })) := by
    unfold set_user
    rw [if_neg (by simp)]
    simp only [List.getD_cons_zero]
    rw [hget]
    simp only [bytes, Option.getD_some]
    rw [show [key, newUser].getD 1 "" = newUser from rfl, PutState_ok _ _ _ hput]
  obtain ⟨h1, h2, h3, h4⟩ := UnmarshalTrade_inRange b Trade.zero zero_inRange
  have hr : Trade.InRange { UnmarshalTrade b Trade.zero with User := newUser } := by
    unfold Trade.InRange
    exact ⟨h1, h2, h3, h4⟩
  have hq := Query_ok
    (written stub key (MarshalTrade { UnmarshalTrade b Trade.zero with User := newUser })) key hge
  rw [hset]
  refine ⟨rfl, by simp only [written, if_true], UnmarshalTrade_MarshalTrade _ hr Trade.zero, ?_⟩
  rw [hq]
  simp only [written, if_true]

set_option maxRecDepth 100000 in
theorem set_user_rewrites_user_witness :
    (init_trade sampleRuntime emptyStub sampleRequest).2.GetState "2021-01-01" =
        Except.ok (some (recordText sampleRuntime sampleRequest)) ∧
      (set_user (init_trade sampleRuntime emptyStub sampleRequest).2 ["2021-01-01", "bob"]).1 =
        Except.ok none ∧
      (UnmarshalTrade (recordText sampleRuntime sampleRequest) Trade.zero).User = "alice" ∧
      UnmarshalTrade
          (MarshalTrade
            { UnmarshalTrade (recordText sampleRuntime sampleRequest) Trade.zero with
              User := "bob" })
          Trade.zero =
        { UnmarshalTrade (recordText sampleRuntime sampleRequest) Trade.zero with User := "bob" } :=
  ⟨by decide,
    (set_user_rewrites_user (init_trade sampleRuntime emptyStub sampleRequest).2 "2021-01-01"
      "bob" (recordText sampleRuntime sampleRequest) (by decide) (by decide)).1,
    by decide,
    (set_user_rewrites_user (init_trade sampleRuntime emptyStub sampleRequest).2 "2021-01-01"
      "bob" (recordText sampleRuntime sampleRequest) (by decide) (by decide)).2.2.1⟩

/-! ## Failing reads and writes, and `init` -/

/-- C11, as stated, fails: the ledger holds nothing under the key, the read
reports no error, and `Query` returns a nil payload without error. -/
theorem Query_absent_counterexample :
    emptyStub.state "2021-01-01" = none ∧
      (Query emptyStub "query" ["2021-01-01"]).1 = Except.ok none := by
  decide

/-- C11, amended: for every ledger and every key whose read fails, as it does
for an absent key on a ledger that reports absence as an error,
`Query("query", [key])` returns an error, never a success result, the error
message is the structured text with the queried key in it, and the ledger is
unchanged. -/
theorem Query_read_fails (stub : ChaincodeStub) (key e : String)
    (h : stub.getError key = some e) :
    Query stub "query" [key] =
      (Except.error ("\x7b\"Error\":\"Failed to get state for security " ++ key ++ "\"\x7d"),
        stub) := by
  unfold Query
  rw [if_neg (by simp), if_neg (by simp)]
  simp only [List.getD_cons_zero]
  rw [GetState_error _ _ e h]

theorem Query_read_fails_witness :
    (Query { emptyStub with getError := fun _ => some "not found" } "query" ["2021-01-01"]).1 =
      Except.error "\x7b\"Error\":\"Failed to get state for security 2021-01-01\"\x7d" :=
  congrArg Prod.fst
    (Query_read_fails { emptyStub with getError := fun _ => some "not found" } "2021-01-01"
      "not found" rfl)

/-- The result of `init` when its two writes succeed. -/
theorem init_writes_ok (stub : ChaincodeStub) (args : List String) (n : Int)
    (hlen : args.length = 1) (ha : Atoi (args.getD 0 "") = some n)
    (hput1 : stub.putError "abc" (Itoa n) = none)
    (hput2 : stub.putError tradeIndexStr (MarshalStrings none) = none) :
    init stub args =
      (Except.ok none,
        written (written stub "abc" (Itoa n)) tradeIndexStr (MarshalStrings none)) := by
  unfold init
  rw [if_neg (by simp [hlen]), ha]
  simp only []
  rw [PutState_ok _ _ _ hput1]
  simp only []
  rw [PutState_ok _ _ _ (by exact hput2)]

/-- C12: when the writes of the ledger succeed, `init` fails if and only if
its argument count is not 1 or its single argument is not accepted as an
integer; when it fails the ledger is unchanged, and when it succeeds the key
`abc` holds the decimal rendering of the integer and the index key holds the
text of the nil list, which decodes to the empty sequence. -/
theorem init_fails_iff (stub : ChaincodeStub) (args : List String)
    (hput : ∀ k v, stub.putError k v = none) :
    ((∃ e, (init stub args).1 = Except.error e) ↔
        (args.length ≠ 1 ∨ Atoi (args.getD 0 "") = none)) ∧
      ((∃ e, (init stub args).1 = Except.error e) → (init stub args).2 = stub) ∧
      ((init stub args).1 = Except.ok none →
        ∃ n, Atoi (args.getD 0 "") = some n ∧
          (init stub args).2.state "abc" = some (Itoa n) ∧
          (init stub args).2.state tradeIndexStr = some (MarshalStrings none) ∧
          decodedIndex (init stub args).2 = []) := by
  by_cases hlen : args.length ≠ 1
  · have hi : init stub args =
        (Except.error "Incorrect number of arguments. Expecting 1", stub) := by
      unfold init
      rw [if_pos hlen]
    rw [hi]
    refine ⟨⟨fun _ => Or.inl hlen, fun _ => ⟨_, rfl⟩⟩, fun _ => rfl, fun h => ?_⟩
    cases h
  · cases ha : Atoi (args.getD 0 "") with
    | none =>
      have hi : init stub args =
          (Except.error "Expecting integer value for asset holding", stub) := by
        unfold init
        rw [if_neg hlen, ha]
      rw [hi]
      refine ⟨⟨fun _ => Or.inr rfl, fun _ => ⟨_, rfl⟩⟩, fun _ => rfl, fun h => ?_⟩
      cases h
    | some n =>
      have hi := init_writes_ok stub args n (not_not.mp hlen) ha (hput _ _) (hput _ _)
      have hd := decodedIndex_init stub args (by rw [hi])
      rw [hi] at hd ⊢
      refine ⟨⟨?_, ?_⟩, ?_, fun _ => ⟨n, rfl, ?_, ?_, hd⟩⟩
      · rintro ⟨e, he⟩
        cases he
      · rintro (h | h)
        · exact absurd h hlen
        · cases h
      · rintro ⟨e, he⟩
        cases he
      · show (if "abc" = tradeIndexStr then some (MarshalStrings none)
          else if "abc" = "abc" then some (Itoa n) else stub.state "abc") = some (Itoa n)
        rw [if_neg (by decide), if_pos rfl]
      · simp only [written, if_true]

theorem init_fails_iff_witness :
    (init emptyStub ["5"]).1 = Except.ok none ∧
      ∃ n, Atoi (["5"].getD 0 "") = some n ∧
        (init emptyStub ["5"]).2.state "abc" = some (Itoa n) ∧
        (init emptyStub ["5"]).2.state tradeIndexStr = some (MarshalStrings none) ∧
        decodedIndex (init emptyStub ["5"]).2 = [] :=
  ⟨by decide, (init_fails_iff emptyStub ["5"] (fun _ _ => rfl)).2.2 (by decide)⟩

/-- C13: for every ledger on which the write of the record of a valid request
under `args[0]` fails, `init_trade` returns that error and the ledger, the
value under the index key included, is after the call what it was before. -/
theorem init_trade_record_write_fails (rt : Runtime) (stub : ChaincodeStub)
    (args : List String) (e : String) (h : Valid args)
    (hput : stub.putError (args.getD 0 "") (recordText rt args) = some e) :
    init_trade rt stub args = (Except.error e, stub) ∧
      (init_trade rt stub args).2.state tradeIndexStr = stub.state tradeIndexStr := by
  have hi : init_trade rt stub args = (Except.error e, stub) := by
    rw [init_trade_valid rt stub args h]
    unfold storeTrade
    rw [PutState_error _ _ _ e hput]
  rw [hi]
  exact ⟨rfl, rfl⟩

set_option maxRecDepth 100000 in
theorem init_trade_record_write_fails_witness :
    Valid sampleRequest ∧
      init_trade sampleRuntime refusingStub sampleRequest =
        (Except.error "write refused", refusingStub) :=
  ⟨by decide,
    (init_trade_record_write_fails sampleRuntime refusingStub sampleRequest "write refused"
      (by decide) rfl).1⟩

set_option maxRecDepth 100000 in
/-- C14 on the code: the request of the specification's scenario is valid, the
peer refuses the write of the index and nothing else, and `init_trade` returns
no error; the record is stored and the index is the one `init` left. -/
theorem init_trade_index_write_fails :
    Valid sampleRequest ∧
      indexRefusingStub.putError tradeIndexStr
          (nextIndex (written indexRefusingStub "2021-01-01"
            (recordText sampleRuntime sampleRequest)) sampleRequest) =
        some "index write refused" ∧
      (init_trade sampleRuntime indexRefusingStub sampleRequest).1 = Except.ok none ∧
      (init_trade sampleRuntime indexRefusingStub sampleRequest).2.state "2021-01-01" =
        some (recordText sampleRuntime sampleRequest) ∧
      (init_trade sampleRuntime indexRefusingStub sampleRequest).2.state tradeIndexStr =
        some "null" := by
  decide

theorem written_same (stub : ChaincodeStub) (k v : String) :
    written (written stub k v) k v = written stub k v := by
  unfold written
  congr 1
  funext x
  by_cases hx : x = k <;> simp [hx]

theorem written_twice (stub : ChaincodeStub) (k1 v1 k2 v2 : String) :
    written (written (written (written stub k1 v1) k2 v2) k1 v1) k2 v2 =
      written (written stub k1 v1) k2 v2 := by
  unfold written
  congr 1
  funext x
  by_cases hx : x = k2 <;> by_cases hy : x = k1 <;> simp [hx, hy]

/-- The result of `init` on one argument that is not an integer. -/
theorem init_not_integer (stub : ChaincodeStub) (a : String) (ha : Atoi a = none) :
    init stub [a] = (Except.error "Expecting integer value for asset holding", stub) := by
  unfold init
  rw [if_neg (by simp)]
  simp only [List.getD_cons_zero]
  rw [ha]

/-- The result of `init` when the write of the test value fails. -/
theorem init_first_write_fails (stub : ChaincodeStub) (a : String) (n : Int) (e : String)
    (ha : Atoi a = some n) (hput : stub.putError "abc" (Itoa n) = some e) :
    init stub [a] = (Except.error e, stub) := by
  unfold init
  rw [if_neg (by simp)]
  simp only [List.getD_cons_zero]
  rw [ha]
  simp only []
  rw [PutState_error _ _ _ e hput]

/-- The result of `init` when the write of the index fails. -/
theorem init_second_write_fails (stub : ChaincodeStub) (a : String) (n : Int) (e : String)
    (ha : Atoi a = some n) (hput1 : stub.putError "abc" (Itoa n) = none)
    (hput2 : stub.putError tradeIndexStr (MarshalStrings none) = some e) :
    init stub [a] = (Except.error e, written stub "abc" (Itoa n)) := by
  unfold init
  rw [if_neg (by simp)]
  simp only [List.getD_cons_zero]
  rw [ha]
  simp only []
  rw [PutState_ok _ _ _ hput1]
  simp only []
  rw [PutState_error _ _ _ e (by exact hput2)]

/-- C15: `init` is idempotent and always clears the index: for every ledger
and every argument, running `init` twice yields the same ledger and the same
result as running it once, and after any successful `init` the list decoded
from the index key is empty whatever the index held before. -/
theorem init_idempotent (stub : ChaincodeStub) (a : String) :
    (init (init stub [a]).2 [a]).2 = (init stub [a]).2 ∧
      (init (init stub [a]).2 [a]).1 = (init stub [a]).1 ∧
      ((init stub [a]).1 = Except.ok none → decodedIndex (init stub [a]).2 = []) := by
  refine ⟨?_, ?_, decodedIndex_init stub [a]⟩
  all_goals
    cases ha : Atoi a with
    | none =>
      rw [init_not_integer stub a ha]
      simp only []
      rw [init_not_integer stub a ha]
    | some n =>
      cases h1 : stub.putError "abc" (Itoa n) with
      | some e =>
        rw [init_first_write_fails stub a n e ha h1]
        simp only []
        rw [init_first_write_fails stub a n e ha h1]
      | none =>
        cases h2 : stub.putError tradeIndexStr (MarshalStrings none) with
        | some e =>
          rw [init_second_write_fails stub a n e ha h1 h2]
          simp only []
          rw [init_second_write_fails (written stub "abc" (Itoa n)) a n e ha h1 h2]
          all_goals simp only [written_same]
        | none =>
          rw [init_writes_ok stub [a] n rfl ha h1 h2]
          simp only []
          rw [init_writes_ok
            (written (written stub "abc" (Itoa n)) tradeIndexStr (MarshalStrings none)) [a] n rfl
            ha h1 h2]
          all_goals simp only [written_twice]

set_option maxRecDepth 100000 in
theorem init_idempotent_witness :
    (init (init_trade sampleRuntime emptyStub sampleRequest).2 ["5"]).1 = Except.ok none ∧
      decodedIndex (init_trade sampleRuntime emptyStub sampleRequest).2 = ["corr1"] ∧
      decodedIndex (init (init_trade sampleRuntime emptyStub sampleRequest).2 ["5"]).2 = [] :=
  ⟨by decide, by decide,
    (init_idempotent (init_trade sampleRuntime emptyStub sampleRequest).2 "5").2.2 (by decide)⟩

/-! ## The record text and the field at position 8 -/

theorem makeTimestamp_eq (rt : Runtime) : makeTimestamp rt = Int.tdiv rt.unixNano 1000000 := by
  unfold makeTimestamp
  rfl

set_option maxRecDepth 100000 in
/-- C16, as stated, fails: two valid creation requests that differ only in the
field at position 8 and whose first field is the index key leave different
bytes under the storage key, because the index, which holds the field at
position 8, is written under the same key after the record. -/
theorem record_independent_of_correlation_counterexample :
    Valid indexKeyRequest ∧ Valid otherIndexKeyRequest ∧
      (∀ i, i < 11 → i ≠ 8 → indexKeyRequest.getD i "" = otherIndexKeyRequest.getD i "") ∧
      (init_trade sampleRuntime emptyStub indexKeyRequest).2.state
          (indexKeyRequest.getD 0 "") = some "[\"corr2\"]" ∧
      (init_trade sampleRuntime emptyStub otherIndexKeyRequest).2.state
          (otherIndexKeyRequest.getD 0 "") = some "[\"zzz\"]" ∧
      (init_trade sampleRuntime emptyStub indexKeyRequest).2.state (indexKeyRequest.getD 0 "") ≠
        (init_trade sampleRuntime emptyStub otherIndexKeyRequest).2.state
          (otherIndexKeyRequest.getD 0 "") := by
  refine ⟨by decide, by decide, by decide, by decide, by decide, by decide⟩

/-- C16, amended: the value stored under the storage key does not depend on
the field at position 8 when the storage key is not the index key.  For every
ledger, every clock reading and every two valid creation requests that agree
in every field but the one at position 8 and whose first field is not the index
key, the value under the storage key after `init_trade` is the same for both
requests; and when the record write succeeds that value is, for both, the text
of line 251, in which the timestamp member is the decimal of the clock reading
in milliseconds since the epoch. -/
theorem record_independent_of_correlation (rt : Runtime) (stub : ChaincodeStub)
    (args1 args2 : List String) (h1 : Valid args1) (h2 : Valid args2)
    (hsame : ∀ i, i < 11 → i ≠ 8 → args1.getD i "" = args2.getD i "")
    (hkey : args1.getD 0 "" ≠ tradeIndexStr) :
    (init_trade rt stub args1).2.state (args1.getD 0 "") =
        (init_trade rt stub args2).2.state (args2.getD 0 "") ∧
      (stub.putError (args1.getD 0 "") (recordText rt args1) = none →
        (init_trade rt stub args1).2.state (args1.getD 0 "") = some
          ("\x7b\"tradedate\": \"" ++ ToLower rt (args1.getD 0 "") ++
          "\", \"valuedate\": \"" ++ ToLower rt (args1.getD 1 "") ++
          "\", \"operation\": \"" ++ ToLower rt (args1.getD 2 "") ++
          "\", \"quantity\": " ++ Itoa ((Atoi (args1.getD 3 "")).getD 0) ++
          ", \"security\": \"" ++ ToLower rt (args1.getD 4 "") ++
          "\", \"price\": \"" ++ ToLower rt (args1.getD 5 "") ++
          "\", \"counterparty\": \"" ++ ToLower rt (args1.getD 6 "") ++
          "\", \"user\": \"" ++ ToLower rt (args1.getD 7 "") ++
          "\", \"timestamp\": \"" ++ Itoa (Int.tdiv rt.unixNano 1000000) ++
          "\", \"settled\": \"" ++ Itoa ((Atoi (args1.getD 9 "")).getD 0) ++
          "\", \"needsrevision\": \"" ++ Itoa ((Atoi (args1.getD 10 "")).getD 0) ++ "\"\x7d") ∧
        (init_trade rt stub args2).2.state (args2.getD 0 "") = some
          ("\x7b\"tradedate\": \"" ++ ToLower rt (args1.getD 0 "") ++
          "\", \"valuedate\": \"" ++ ToLower rt (args1.getD 1 "") ++
          "\", \"operation\": \"" ++ ToLower rt (args1.getD 2 "") ++
          "\", \"quantity\": " ++ Itoa ((Atoi (args1.getD 3 "")).getD 0) ++
          ", \"security\": \"" ++ ToLower rt (args1.getD 4 "") ++
          "\", \"price\": \"" ++ ToLower rt (args1.getD 5 "") ++
          "\", \"counterparty\": \"" ++ ToLower rt (args1.getD 6 "") ++
          "\", \"user\": \"" ++ ToLower rt (args1.getD 7 "") ++
          "\", \"timestamp\": \"" ++ Itoa (Int.tdiv rt.unixNano 1000000) ++
          "\", \"settled\": \"" ++ Itoa ((Atoi (args1.getD 9 "")).getD 0) ++
          "\", \"needsrevision\": \"" ++ Itoa ((Atoi (args1.getD 10 "")).getD 0) ++ "\"\x7d")) := by
  have hk : args2.getD 0 "" = args1.getD 0 "" := (hsame 0 (by omega) (by omega)).symm
  have ht : recordText rt args2 = recordText rt args1 := by
    unfold recordText
    rw [hsame 0 (by omega) (by omega), hsame 1 (by omega) (by omega),
      hsame 2 (by omega) (by omega), hsame 3 (by omega) (by omega),
      hsame 4 (by omega) (by omega), hsame 5 (by omega) (by omega),
      hsame 6 (by omega) (by omega), hsame 7 (by omega) (by omega),
      hsame 9 (by omega) (by omega), hsame 10 (by omega) (by omega)]
  have key : ∀ args : List String, Valid args → args.getD 0 "" ≠ tradeIndexStr →
      stub.putError (args.getD 0 "") (recordText rt args) = none →
      (init_trade rt stub args).2.state (args.getD 0 "") = some (recordText rt args) := by
    intro args h hkey hp
    rw [init_trade_valid rt stub args h]
    unfold storeTrade
    rw [PutState_ok _ _ _ hp]
    simp only []
    cases hg : (written stub (args.getD 0 "") (recordText rt args)).getError tradeIndexStr with
    | some e =>
      rw [GetState_error _ _ e hg]
      simp only [written, if_true]
    | none =>
      rw [GetState_ok _ _ hg]
      simp only []
      cases hp2 : (written stub (args.getD 0 "") (recordText rt args)).putError tradeIndexStr
          (MarshalStrings (some ((UnmarshalStrings (bytes
            ((written stub (args.getD 0 "") (recordText rt args)).state tradeIndexStr))).getD [] ++
              [args.getD 8 ""]))) with
      | some e =>
        rw [PutState_error _ _ _ e hp2]
        simp only [written, if_true]
      | none =>
        rw [PutState_ok _ _ _ hp2]
        simp only [written, if_neg hkey, if_true]
  have hkey2 : args2.getD 0 "" ≠ tradeIndexStr := by rw [hk]; exact hkey
  refine ⟨?_, fun hput => ?_⟩
  · cases hp : stub.putError (args1.getD 0 "") (recordText rt args1) with
    | none =>
      rw [key args1 h1 hkey hp, key args2 h2 hkey2 (by rw [hk, ht]; exact hp), ht]
    | some e =>
      rw [init_trade_valid rt stub args1 h1, init_trade_valid rt stub args2 h2, hk, ht]
      unfold storeTrade
      rw [hk, PutState_error _ _ _ e hp]
  · have e1 := key args1 h1 hkey hput
    have e2 := key args2 h2 hkey2 (by rw [hk, ht]; exact hput)
    rw [ht] at e2
    unfold recordText tradeText at e1 e2
    rw [makeTimestamp_eq] at e1 e2
    exact ⟨e1, e2⟩

set_option maxRecDepth 100000 in
theorem record_independent_of_correlation_witness :
    sampleRequest.getD 8 "" ≠ otherCorrelationRequest.getD 8 "" ∧
      (init_trade sampleRuntime emptyStub sampleRequest).2.state "2021-01-01" = some
         ("\x7b\"tradedate\": \"2021-01-01\", \"valuedate\": \"2021-01-02\", " ++
          "\"operation\": \"buy\", \"quantity\": 100, \"security\": \"sec1\", " ++
          "\"price\": \"99.5\", \"counterparty\": \"cpty1\", \"user\": \"alice\", " ++
          "\"timestamp\": \"1609459200000\", \"settled\": \"0\", \"needsrevision\": \"0\"\x7d") ∧
      (init_trade sampleRuntime emptyStub otherCorrelationRequest).2.state "2021-01-01" = some
         ("\x7b\"tradedate\": \"2021-01-01\", \"valuedate\": \"2021-01-02\", " ++
          "\"operation\": \"buy\", \"quantity\": 100, \"security\": \"sec1\", " ++
          "\"price\": \"99.5\", \"counterparty\": \"cpty1\", \"user\": \"alice\", " ++
          "\"timestamp\": \"1609459200000\", \"settled\": \"0\", \"needsrevision\": \"0\"\x7d") ∧
      recordText sampleRuntime sampleRequest =
         "\x7b\"tradedate\": \"2021-01-01\", \"valuedate\": \"2021-01-02\", " ++
          "\"operation\": \"buy\", \"quantity\": 100, \"security\": \"sec1\", " ++
          "\"price\": \"99.5\", \"counterparty\": \"cpty1\", \"user\": \"alice\", " ++
          "\"timestamp\": \"1609459200000\", \"settled\": \"0\", \"needsrevision\": \"0\"\x7d" ∧
      (init_trade sampleRuntime emptyStub sampleRequest).2.state tradeIndexStr =
        some "[\"corr1\"]" ∧
      (init_trade sampleRuntime emptyStub otherCorrelationRequest).2.state tradeIndexStr =
        some "[\"zzz\"]" :=
  ⟨by decide,
    ((record_independent_of_correlation sampleRuntime emptyStub sampleRequest
      otherCorrelationRequest (by decide) (by decide)
      (fun i hi h8 => by interval_cases i <;> first | rfl | exact absurd rfl h8)
      (by decide)).2 rfl).1.trans (by decide),
    ((record_independent_of_correlation sampleRuntime emptyStub sampleRequest
      otherCorrelationRequest (by decide) (by decide)
      (fun i hi h8 => by interval_cases i <;> first | rfl | exact absurd rfl h8)
      (by decide)).2 rfl).2.trans (by decide),
    by decide, by decide, by decide⟩

/-! ## Validation as a whole -/

theorem Atoi_Itoa (n : Int) (h : Int64 n) : Atoi (Itoa n) = some n :=
  ParseInt_formatInt n h.1 h.2

theorem Itoa_ne_empty (n : Int) : Itoa n ≠ "" := by
  intro h
  have hd : (Itoa n).data = [] := by rw [h]
  cases n with
  | ofNat k =>
    obtain ⟨c, tl, e, _⟩ := formatNat_head k
    simp [Itoa, formatInt, e] at hd
  | negSucc k => simp [Itoa, formatInt] at hd

/-- A request that is not valid is rejected with an error and the ledger is
left alone. -/
theorem init_trade_invalid (rt : Runtime) (stub : ChaincodeStub) (args : List String)
    (h : ¬ Valid args) : ∃ e, init_trade rt stub args = (Except.error e, stub) := by
  unfold init_trade
  by_cases h0 : args.length ≠ 11
  · rw [if_pos h0]; exact ⟨_, rfl⟩
  rw [if_neg h0]
  by_cases e0 : (args.getD 0 "").length ≤ 0
  · rw [if_pos e0]; exact ⟨_, rfl⟩
  rw [if_neg e0]
  by_cases e1 : (args.getD 1 "").length ≤ 0
  · rw [if_pos e1]; exact ⟨_, rfl⟩
  rw [if_neg e1]
  by_cases e2 : (args.getD 2 "").length ≤ 0
  · rw [if_pos e2]; exact ⟨_, rfl⟩
  rw [if_neg e2]
  by_cases e3 : (args.getD 3 "").length ≤ 0
  · rw [if_pos e3]; exact ⟨_, rfl⟩
  rw [if_neg e3]
  by_cases e4 : (args.getD 4 "").length ≤ 0
  · rw [if_pos e4]; exact ⟨_, rfl⟩
  rw [if_neg e4]
  by_cases e5 : (args.getD 5 "").length ≤ 0
  · rw [if_pos e5]; exact ⟨_, rfl⟩
  rw [if_neg e5]
  by_cases e6 : (args.getD 6 "").length ≤ 0
  · rw [if_pos e6]; exact ⟨_, rfl⟩
  rw [if_neg e6]
  by_cases e7 : (args.getD 7 "").length ≤ 0
  · rw [if_pos e7]; exact ⟨_, rfl⟩
  rw [if_neg e7]
  by_cases e8 : (args.getD 8 "").length ≤ 0
  · rw [if_pos e8]; exact ⟨_, rfl⟩
  rw [if_neg e8]
  by_cases e9 : (args.getD 9 "").length ≤ 0
  · rw [if_pos e9]; exact ⟨_, rfl⟩
  rw [if_neg e9]
  by_cases e10 : (args.getD 10 "").length ≤ 0
  · rw [if_pos e10]; exact ⟨_, rfl⟩
  rw [if_neg e10]
  simp only []
  have hne : ∀ i, i < 11 → args.getD i "" ≠ "" := by
    intro i hi hem
    have hz := (length_le_zero _).mpr hem
    interval_cases i
    · exact e0 hz
    · exact e1 hz
    · exact e2 hz
    · exact e3 hz
    · exact e4 hz
    · exact e5 hz
    · exact e6 hz
    · exact e7 hz
    · exact e8 hz
    · exact e9 hz
    · exact e10 hz
  cases h3 : Atoi (args.getD 3 "") with
  | none => exact ⟨_, rfl⟩
  | some q =>
    cases h9 : Atoi (args.getD 9 "") with
    | none => exact ⟨_, rfl⟩
    | some s =>
      cases h10 : Atoi (args.getD 10 "") with
      | none => exact ⟨_, rfl⟩
      | some n =>
        exfalso
        exact h ⟨not_not.mp h0, hne, by rw [h3]; rfl, by rw [h9]; rfl, by rw [h10]; rfl⟩

set_option maxRecDepth 100000 in
/-- C17, as stated, fails: the request has eleven fields, the fields at
positions 0..8 are non-empty, the quantity is an integer and the settled field
is the decimal text of the integer 2^63, and `init_trade` rejects it. -/
theorem flags_any_integer_counterexample :
    bigSettledRequest.length = 11 ∧
      (∀ i, i < 9 → bigSettledRequest.getD i "" ≠ "") ∧
      Atoi (bigSettledRequest.getD 3 "") = some 100 ∧
      bigSettledRequest.getD 9 "" = Itoa (2 ^ 63) ∧
      bigSettledRequest.getD 10 "" = Itoa 0 ∧
      (init_trade sampleRuntime emptyStub bigSettledRequest).1 =
        Except.error "10th argument must be a numeric string" := by
  decide

/-- C17, amended: for every creation request of eleven fields with the fields
at positions 0..8 non-empty and the quantity an integer, and for all integers
`n` and `m` of the 64-bit signed range, the request passes validation when the
settled field is the decimal text of `n` and the needsRevision field is the
decimal text of `m`: no further range check and no 0/1 check rejects it. -/
theorem flags_any_integer (rt : Runtime) (args : List String) (hlen : args.length = 11)
    (hne : ∀ i, i < 9 → args.getD i "" ≠ "") (hq : (Atoi (args.getD 3 "")).isSome = true)
    (n m : Int) (hn : Int64 n) (hm : Int64 m) (h9 : args.getD 9 "" = Itoa n)
    (h10 : args.getD 10 "" = Itoa m) :
    Valid args ∧ Atoi (args.getD 9 "") = some n ∧ Atoi (args.getD 10 "") = some m ∧
      ∀ stub, init_trade rt stub args = storeTrade stub args (recordText rt args) := by
  have a9 : Atoi (args.getD 9 "") = some n := by rw [h9]; exact Atoi_Itoa n hn
  have a10 : Atoi (args.getD 10 "") = some m := by rw [h10]; exact Atoi_Itoa m hm
  have hv : Valid args := by
    refine ⟨hlen, ?_, hq, by rw [a9]; rfl, by rw [a10]; rfl⟩
    intro i hi
    by_cases h8 : i < 9
    · exact hne i h8
    · have hi2 : i = 9 ∨ i = 10 := by omega
      rcases hi2 with rfl | rfl
      · rw [h9]; exact Itoa_ne_empty n
      · rw [h10]; exact Itoa_ne_empty m
  exact ⟨hv, a9, a10, fun stub => init_trade_valid rt stub args hv⟩

set_option maxRecDepth 100000 in
theorem flags_any_integer_witness :
    Valid ["a", "b", "c", "1", "e", "f", "g", "h", "i", "-7", "2021"] ∧
      Atoi "-7" = some (-7) ∧ Atoi "2021" = some 2021 :=
  ⟨(flags_any_integer sampleRuntime ["a", "b", "c", "1", "e", "f", "g", "h", "i", "-7", "2021"]
      (by decide) (by decide) (by decide) (-7) 2021 (by unfold Int64; decide)
      (by unfold Int64; decide) (by decide) (by decide)).1,
    by decide, by decide⟩

/-- C18: `init_trade` passes validation, that is, goes on to the record write,
if and only if the request has exactly eleven fields, the fields at positions
0..8 are non-empty, and the fields at positions 3, 9 and 10 are each accepted
as an integer; these conditions are the same as the code's checks, with the
non-emptiness checks on positions 9 and 10 included. -/
theorem passes_validation_iff (rt : Runtime) (args : List String) :
    (PassesValidation rt args ↔
        (args.length = 11 ∧ (∀ i, i < 9 → args.getD i "" ≠ "") ∧
          Atoi (args.getD 3 "") ≠ none ∧ Atoi (args.getD 9 "") ≠ none ∧
          Atoi (args.getD 10 "") ≠ none)) ∧
      (Valid args ↔
        (args.length = 11 ∧ (∀ i, i < 9 → args.getD i "" ≠ "") ∧
          Atoi (args.getD 3 "") ≠ none ∧ Atoi (args.getD 9 "") ≠ none ∧
          Atoi (args.getD 10 "") ≠ none)) := by
  have hsome : ∀ o : Option Int, o ≠ none ↔ o.isSome = true := by
    intro o
    cases o <;> simp
  have hvalid : Valid args ↔
      (args.length = 11 ∧ (∀ i, i < 9 → args.getD i "" ≠ "") ∧
        Atoi (args.getD 3 "") ≠ none ∧ Atoi (args.getD 9 "") ≠ none ∧
        Atoi (args.getD 10 "") ≠ none) := by
    constructor
    · rintro ⟨hlen, hne, h3, h9, h10⟩
      exact ⟨hlen, fun i hi => hne i (by omega), (hsome _).mpr h3, (hsome _).mpr h9,
        (hsome _).mpr h10⟩
    · rintro ⟨hlen, hne, h3, h9, h10⟩
      refine ⟨hlen, ?_, (hsome _).mp h3, (hsome _).mp h9, (hsome _).mp h10⟩
      intro i hi
      by_cases h8 : i < 9
      · exact hne i h8
      · have hi2 : i = 9 ∨ i = 10 := by omega
        rcases hi2 with rfl | rfl
        · intro hem
          rw [hem] at h9
          exact h9 (by decide)
        · intro hem
          rw [hem] at h10
          exact h10 (by decide)
  refine ⟨?_, hvalid⟩
  rw [← hvalid]
  constructor
  · intro hp
    by_contra hv
    obtain ⟨e, he⟩ := init_trade_invalid rt emptyStub args hv
    have hs := storeTrade_ok emptyStub args (recordText rt args) rfl rfl
    rw [hp emptyStub, hs] at he
    cases he
  · intro hv stub
    exact init_trade_valid rt stub args hv

/-! ## The entry a creation adds to the index -/

theorem decodedIndex_absent (stub : ChaincodeStub) (h : stub.state tradeIndexStr = none) :
    decodedIndex stub = [] := by
  unfold decodedIndex
  rw [h]
  decide

theorem decodedIndex_not_array (stub : ChaincodeStub) (v : String)
    (h : stub.state tradeIndexStr = some v) (hv : ∀ vs, parse v ≠ some (JSON.arr vs)) :
    decodedIndex stub = [] := by
  unfold decodedIndex UnmarshalStrings
  rw [h]
  simp only [bytes, Option.getD_some]
  cases hp : parse v with
  | none => rfl
  | some j =>
    cases j with
    | arr vs => exact absurd hp (hv vs)
    | null => rfl
    | bool b => rfl
    | num l => rfl
    | str l => rfl
    | obj ms => rfl

set_option maxRecDepth 100000 in
/-- C19, as stated, fails: the index holds `corr1`, the creation request whose
first field is the index key succeeds, and the index after it is `corr2`
alone, not the previous index with `corr2` added. -/
theorem index_append_counterexample :
    decodedIndex (init_trade sampleRuntime (init emptyStub ["5"]).2 sampleRequest).2 =
        ["corr1"] ∧
      Valid indexKeyRequest ∧
      (init_trade sampleRuntime
          (init_trade sampleRuntime (init emptyStub ["5"]).2 sampleRequest).2
          indexKeyRequest).1 = Except.ok none ∧
      (init_trade sampleRuntime
          (init_trade sampleRuntime (init emptyStub ["5"]).2 sampleRequest).2
          indexKeyRequest).2.state tradeIndexStr = some "[\"corr2\"]" := by
  decide

/-- C19, amended: for every ledger and every valid creation request whose
first field is not the index key and whose ledger operations succeed, the
index written by `init_trade` is the previously stored index sequence (the
empty sequence when the index value is absent or is not a JSON array) with
exactly one entry added at the end, and that entry is the request's field at
position 8, not the storage key at position 0. -/
theorem index_append (rt : Runtime) (stub : ChaincodeStub) (args : List String)
    (h : Valid args) (hkey : args.getD 0 "" ≠ tradeIndexStr)
    (hput : stub.putError (args.getD 0 "") (recordText rt args) = none)
    (hget : stub.getError tradeIndexStr = none)
    (hput2 : stub.putError tradeIndexStr
      (MarshalStrings (some (decodedIndex stub ++ [args.getD 8 ""]))) = none) :
    (init_trade rt stub args).1 = Except.ok none ∧
      (init_trade rt stub args).2.state tradeIndexStr =
        some (MarshalStrings (some (decodedIndex stub ++ [args.getD 8 ""]))) ∧
      decodedIndex (init_trade rt stub args).2 = decodedIndex stub ++ [args.getD 8 ""] ∧
      (stub.state tradeIndexStr = none → decodedIndex stub = []) ∧
      (∀ v, stub.state tradeIndexStr = some v → (∀ vs, parse v ≠ some (JSON.arr vs)) →
        decodedIndex stub = []) := by
  have hn : nextIndex (written stub (args.getD 0 "") (recordText rt args)) args =
      MarshalStrings (some (decodedIndex stub ++ [args.getD 8 ""])) := by
    unfold nextIndex
    rw [decodedIndex_written_other _ _ _ hkey]
  have hs := storeTrade_ok stub args (recordText rt args) hput hget
  rw [hn, hput2] at hs
  simp only [] at hs
  rw [init_trade_valid rt stub args h, hs]
  refine ⟨rfl, ?_, ?_, decodedIndex_absent stub, decodedIndex_not_array stub⟩
  · simp only [written, if_true]
  · unfold decodedIndex
    simp only [written, if_true, bytes, Option.getD_some]
    rw [UnmarshalStrings_MarshalStrings]
    rfl

set_option maxRecDepth 100000 in
theorem index_append_witness :
    decodedIndex (init_trade sampleRuntime emptyStub sampleRequest).2 = ["corr1"] ∧
      decodedIndex
          (init_trade sampleRuntime (init_trade sampleRuntime emptyStub sampleRequest).2
            otherCorrelationRequest).2 =
        decodedIndex (init_trade sampleRuntime emptyStub sampleRequest).2 ++ ["zzz"] :=
  ⟨by decide,
    (index_append sampleRuntime (init_trade sampleRuntime emptyStub sampleRequest).2
      otherCorrelationRequest (by decide) (by decide) (by decide) (by decide)
      (by decide)).2.2.1⟩

/-! ## Lower-casing -/

theorem toLower_ascii (c : Char) (h : c.toNat < 128) :
    c.toLower.toNat < 128 ∧ c.toLower.toLower = c.toLower := by
  by_cases hu : 65 ≤ c.toNat ∧ c.toNat ≤ 90
  · have hc : c = Char.ofNat c.toNat := (Char.ofNat_toNat c).symm
    obtain ⟨h1, h2⟩ := hu
    generalize c.toNat = n at hc h1 h2
    subst hc
    interval_cases n <;> decide
  · have hl : c.toLower = c := by
      unfold Char.toLower
      simp only [ge_iff_le]
      rw [if_neg hu]
    rw [hl]
    exact ⟨h, hl⟩

theorem toLowerRune_idem (rt : Runtime) (hs : LowerStable rt) (c : Char) :
    toLowerRune rt (toLowerRune rt c) = toLowerRune rt c := by
  by_cases h : c.toNat < 128
  · have hc : toLowerRune rt c = c.toLower := by
      unfold toLowerRune
      rw [if_pos h]
    rw [hc]
    obtain ⟨h1, h2⟩ := toLower_ascii c h
    unfold toLowerRune
    rw [if_pos h1, h2]
  · have hc : toLowerRune rt c = rt.unicodeLower c := by
      unfold toLowerRune
      rw [if_neg h]
    rw [hc]
    exact hs c (by omega)

/-- Lower-casing twice is lower-casing once, for a case table with the
property of Go's. -/
theorem ToLower_idem (rt : Runtime) (hs : LowerStable rt) (s : String) :
    ToLower rt (ToLower rt s) = ToLower rt s := by
  unfold ToLower
  simp only [List.map_map]
  congr 1
  exact List.map_congr_left (fun c _ => toLowerRune_idem rt hs c)

/-- Lower-casing a string that is already lower case changes nothing. -/
theorem ToLower_of_alreadyLower (rt : Runtime) (s : String) (h : AlreadyLower rt s) :
    ToLower rt s = s := by
  unfold ToLower
  apply String.ext
  show s.data.map (toLowerRune rt) = s.data
  exact (List.map_congr_left h).trans (List.map_id _)

/-- Lower-casing an ASCII text twice is lower-casing it once, whatever the
case table for the runes above ASCII. -/
theorem ToLower_idem_ascii (rt : Runtime) (s : String) (h : Ascii s) :
    ToLower rt (ToLower rt s) = ToLower rt s := by
  unfold ToLower
  simp only [List.map_map]
  congr 1
  refine List.map_congr_left (fun c hc => ?_)
  have hlt := h c hc
  obtain ⟨h1, h2⟩ := toLower_ascii c hlt
  show toLowerRune rt (toLowerRune rt c) = toLowerRune rt c
  have e : toLowerRune rt c = c.toLower := by
    unfold toLowerRune
    rw [if_pos hlt]
  rw [e]
  unfold toLowerRune
  rw [if_pos h1, h2]

/-- Lower-casing twice is lower-casing once for every text exactly when the
case table maps every rune above ASCII to a rune that lower-casing leaves
alone. -/
theorem ToLower_idem_iff (rt : Runtime) :
    (∀ s : String, ToLower rt (ToLower rt s) = ToLower rt s) ↔ LowerStable rt := by
  constructor
  · intro h c hc
    have e := h (String.mk [c])
    have e1 : toLowerRune rt c = rt.unicodeLower c := by
      unfold toLowerRune
      rw [if_neg (by omega)]
    have e2 : ToLower rt (String.mk [c]) = String.mk [rt.unicodeLower c] := by
      unfold ToLower
      simp only [List.map_cons, List.map_nil, e1]
    rw [e2] at e
    unfold ToLower at e
    simp only [List.map_cons, List.map_nil] at e
    injection e with e
    injection e with e
  · intro hs s
    exact ToLower_idem rt hs s

set_option maxRecDepth 100000 in
/-- C20, as stated, fails: the valid creation request whose first field is the
index key has text fields that are already lower case and is accepted, yet
after the call the value under its storage key is the index, not a record: its
bytes are not the record text and decode to a record whose text fields are
empty, not the input strings. -/
theorem lowercase_normalization_counterexample :
    Valid indexKeyRequest ∧
      (∀ i, i ∈ [0, 1, 2, 4, 5, 6, 7] →
        ToLower sampleRuntime (indexKeyRequest.getD i "") = indexKeyRequest.getD i "") ∧
      (init_trade sampleRuntime emptyStub indexKeyRequest).1 = Except.ok none ∧
      (init_trade sampleRuntime emptyStub indexKeyRequest).2.state
          (indexKeyRequest.getD 0 "") = some "[\"corr2\"]" ∧
      (UnmarshalTrade (bytes ((init_trade sampleRuntime emptyStub indexKeyRequest).2.state
          (indexKeyRequest.getD 0 ""))) Trade.zero).TradeDate = "" ∧
      (UnmarshalTrade (bytes ((init_trade sampleRuntime emptyStub indexKeyRequest).2.state
          (indexKeyRequest.getD 0 ""))) Trade.zero).User = "" ∧
      indexKeyRequest.getD 0 "" = "_tradeindex" ∧ indexKeyRequest.getD 7 "" = "alice" := by
  refine ⟨by decide, by decide, by decide, by decide, by decide, by decide, by decide, by decide⟩

/-- C20, amended: for every ledger and every valid creation request whose first
field is not the index key, when the record write succeeds, the value stored
under the storage key after `init_trade` is the text of line 251 in which the
seven text members are the lower case of the inputs at positions 0, 1, 2, 4, 5,
6 and 7; when these inputs are already lower case the members are the input
strings exactly; when the lower-cased inputs contain no double quote, backslash
or control character the stored bytes decode to a record with these seven text
fields; and lower-casing a lower-cased text changes nothing, for every ASCII
text whatever the case table, and for every text exactly when the case table
maps every rune above ASCII to a rune that lower-casing leaves alone. -/
theorem lowercase_normalization (rt : Runtime) (stub : ChaincodeStub) (args : List String)
    (h : Valid args) (hkey : args.getD 0 "" ≠ tradeIndexStr)
    (hput : stub.putError (args.getD 0 "") (recordText rt args) = none) :
    (init_trade rt stub args).2.state (args.getD 0 "") = some
        ("\x7b\"tradedate\": \"" ++ ToLower rt (args.getD 0 "") ++
        "\", \"valuedate\": \"" ++ ToLower rt (args.getD 1 "") ++
        "\", \"operation\": \"" ++ ToLower rt (args.getD 2 "") ++
        "\", \"quantity\": " ++ Itoa ((Atoi (args.getD 3 "")).getD 0) ++
        ", \"security\": \"" ++ ToLower rt (args.getD 4 "") ++
        "\", \"price\": \"" ++ ToLower rt (args.getD 5 "") ++
        "\", \"counterparty\": \"" ++ ToLower rt (args.getD 6 "") ++
        "\", \"user\": \"" ++ ToLower rt (args.getD 7 "") ++
        "\", \"timestamp\": \"" ++ Itoa (Int.tdiv rt.unixNano 1000000) ++
        "\", \"settled\": \"" ++ Itoa ((Atoi (args.getD 9 "")).getD 0) ++
        "\", \"needsrevision\": \"" ++ Itoa ((Atoi (args.getD 10 "")).getD 0) ++ "\"\x7d") ∧
      ((∀ i, i ∈ [0, 1, 2, 4, 5, 6, 7] → AlreadyLower rt (args.getD i "")) →
        (init_trade rt stub args).2.state (args.getD 0 "") = some
          ("\x7b\"tradedate\": \"" ++ args.getD 0 "" ++
          "\", \"valuedate\": \"" ++ args.getD 1 "" ++
          "\", \"operation\": \"" ++ args.getD 2 "" ++
          "\", \"quantity\": " ++ Itoa ((Atoi (args.getD 3 "")).getD 0) ++
          ", \"security\": \"" ++ args.getD 4 "" ++
          "\", \"price\": \"" ++ args.getD 5 "" ++
          "\", \"counterparty\": \"" ++ args.getD 6 "" ++
          "\", \"user\": \"" ++ args.getD 7 "" ++
          "\", \"timestamp\": \"" ++ Itoa (Int.tdiv rt.unixNano 1000000) ++
          "\", \"settled\": \"" ++ Itoa ((Atoi (args.getD 9 "")).getD 0) ++
          "\", \"needsrevision\": \"" ++ Itoa ((Atoi (args.getD 10 "")).getD 0) ++ "\"\x7d")) ∧
      ((∀ i, i ∈ [0, 1, 2, 4, 5, 6, 7] → Plain (ToLower rt (args.getD i "")).data) →
        ∃ b, (init_trade rt stub args).2.state (args.getD 0 "") = some b ∧
          (UnmarshalTrade b Trade.zero).TradeDate = ToLower rt (args.getD 0 "") ∧
          (UnmarshalTrade b Trade.zero).ValueDate = ToLower rt (args.getD 1 "") ∧
          (UnmarshalTrade b Trade.zero).Operation = ToLower rt (args.getD 2 "") ∧
          (UnmarshalTrade b Trade.zero).Security = ToLower rt (args.getD 4 "") ∧
          (UnmarshalTrade b Trade.zero).Price = ToLower rt (args.getD 5 "") ∧
          (UnmarshalTrade b Trade.zero).Counterparty = ToLower rt (args.getD 6 "") ∧
          (UnmarshalTrade b Trade.zero).User = ToLower rt (args.getD 7 "")) ∧
      (∀ s : String, Ascii s → ToLower rt (ToLower rt s) = ToLower rt s) ∧
      ((∀ s : String, ToLower rt (ToLower rt s) = ToLower rt s) ↔ LowerStable rt) := by
  have key : ∀ args : List String, Valid args → args.getD 0 "" ≠ tradeIndexStr →
      stub.putError (args.getD 0 "") (recordText rt args) = none →
      (init_trade rt stub args).2.state (args.getD 0 "") = some (recordText rt args) := by
    intro args h hkey hp
    rw [init_trade_valid rt stub args h]
    unfold storeTrade
    rw [PutState_ok _ _ _ hp]
    simp only []
    cases hg : (written stub (args.getD 0 "") (recordText rt args)).getError tradeIndexStr with
    | some e =>
      rw [GetState_error _ _ e hg]
      simp only [written, if_true]
    | none =>
      rw [GetState_ok _ _ hg]
      simp only []
      cases hp2 : (written stub (args.getD 0 "") (recordText rt args)).putError tradeIndexStr
          (MarshalStrings (some ((UnmarshalStrings (bytes
            ((written stub (args.getD 0 "") (recordText rt args)).state tradeIndexStr))).getD [] ++
              [args.getD 8 ""]))) with
      | some e =>
        rw [PutState_error _ _ _ e hp2]
        simp only [written, if_true]
      | none =>
        rw [PutState_ok _ _ _ hp2]
        simp only [written, if_neg hkey, if_true]
  have e := key args h hkey hput
  have eb := e
  unfold recordText tradeText at eb
  rw [makeTimestamp_eq] at eb
  refine ⟨eb, ?_, ?_, fun s hs => ToLower_idem_ascii rt s hs, ToLower_idem_iff rt⟩
  · intro hl
    rw [ToLower_of_alreadyLower rt _ (hl 0 (by simp)),
      ToLower_of_alreadyLower rt _ (hl 1 (by simp)),
      ToLower_of_alreadyLower rt _ (hl 2 (by simp)),
      ToLower_of_alreadyLower rt _ (hl 4 (by simp)),
      ToLower_of_alreadyLower rt _ (hl 5 (by simp)),
      ToLower_of_alreadyLower rt _ (hl 6 (by simp)),
      ToLower_of_alreadyLower rt _ (hl 7 (by simp))] at eb
    exact eb
  · intro hplain
    refine ⟨recordText rt args, e, ?_⟩
    obtain ⟨_, _, h3, _, _⟩ := h
    cases e3 : Atoi (args.getD 3 "") with
    | none => rw [e3] at h3; simp at h3
    | some q =>
      have hdec : UnmarshalTrade (recordText rt args) Trade.zero = _ :=
        UnmarshalTrade_tradeText _ _ _ ((Atoi (args.getD 3 "")).getD 0) _ _ _ _ (makeTimestamp rt)
          ((Atoi (args.getD 9 "")).getD 0) ((Atoi (args.getD 10 "")).getD 0)
          (hplain 0 (by simp)) (hplain 1 (by simp)) (hplain 2 (by simp)) (hplain 4 (by simp))
          (hplain 5 (by simp)) (hplain 6 (by simp)) (hplain 7 (by simp))
          (by rw [e3]; exact Atoi_range _ _ e3) Trade.zero
      rw [hdec]
      exact ⟨rfl, rfl, rfl, rfl, rfl, rfl, rfl⟩

set_option maxRecDepth 100000 in
theorem lowercase_normalization_witness :
    upperRequest.getD 2 "" = "BUY" ∧
      (init_trade sampleRuntime emptyStub upperRequest).2.state "2021-01-01" = some
         ("\x7b\"tradedate\": \"2021-01-01\", \"valuedate\": \"2021-01-02\", " ++
          "\"operation\": \"buy\", \"quantity\": 100, \"security\": \"sec1\", " ++
          "\"price\": \"99.5\", \"counterparty\": \"cpty1\", \"user\": \"alice\", " ++
          "\"timestamp\": \"1609459200000\", \"settled\": \"1\", \"needsrevision\": \"0\"\x7d") ∧
      (init_trade sampleRuntime emptyStub sampleRequest).2.state "2021-01-01" = some
         ("\x7b\"tradedate\": \"2021-01-01\", \"valuedate\": \"2021-01-02\", " ++
          "\"operation\": \"buy\", \"quantity\": 100, \"security\": \"sec1\", " ++
          "\"price\": \"99.5\", \"counterparty\": \"cpty1\", \"user\": \"alice\", " ++
          "\"timestamp\": \"1609459200000\", \"settled\": \"0\", \"needsrevision\": \"0\"\x7d") ∧
      recordText sampleRuntime upperRequest =
         "\x7b\"tradedate\": \"2021-01-01\", \"valuedate\": \"2021-01-02\", " ++
          "\"operation\": \"buy\", \"quantity\": 100, \"security\": \"sec1\", " ++
          "\"price\": \"99.5\", \"counterparty\": \"cpty1\", \"user\": \"alice\", " ++
          "\"timestamp\": \"1609459200000\", \"settled\": \"1\", \"needsrevision\": \"0\"\x7d" ∧
      (init_trade sampleRuntime emptyStub upperRequest).2.state tradeIndexStr =
        some "[\"corr1\"]" ∧
      (UnmarshalTrade (bytes ((init_trade sampleRuntime emptyStub upperRequest).2.state
        "2021-01-01")) Trade.zero).Operation = "buy" :=
  ⟨by decide,
    (lowercase_normalization sampleRuntime emptyStub upperRequest (by decide) (by decide)
      rfl).1.trans (by decide),
    ((lowercase_normalization sampleRuntime emptyStub sampleRequest (by decide) (by decide)
      rfl).2.1 (by unfold AlreadyLower; decide)).trans (by decide),
    by decide, by decide, by decide⟩

/-! ## The frame of `init_trade`, the order of its checks, and `Query` -/

/-- C21: `init_trade` changes at most two keys.  For every ledger, every
request and every key other than the request's first field and the index key,
the value stored under the key after the call is the value before it, whether
the call succeeds or fails. -/
theorem init_trade_frame (rt : Runtime) (stub : ChaincodeStub) (args : List String)
    (k : String) (hk0 : k ≠ args.getD 0 "") (hki : k ≠ tradeIndexStr) :
    (init_trade rt stub args).2.state k = stub.state k := by
  rcases init_trade_cases rt stub args with h | ⟨str, _, _, h⟩
  · rw [h]
  · rw [h]
    rcases storeTrade_state stub args str with h1 | h1 | h1
    · rw [h1]
    · rw [h1]
      simp only [written]
      rw [if_neg hk0]
    · rw [h1]
      simp only [written]
      rw [if_neg hki, if_neg hk0]

set_option maxRecDepth 100000 in
theorem init_trade_frame_witness :
    (init emptyStub ["5"]).2.state "abc" = some "5" ∧
      (init_trade sampleRuntime (init emptyStub ["5"]).2 sampleRequest).1 = Except.ok none ∧
      (init_trade sampleRuntime (init emptyStub ["5"]).2 sampleRequest).2.state "abc" =
        (init emptyStub ["5"]).2.state "abc" :=
  ⟨by decide, by decide,
    init_trade_frame sampleRuntime (init emptyStub ["5"]).2 sampleRequest "abc" (by decide)
      (by decide)⟩

/-- C22: in `init_trade` every emptiness check is decided before any integer
check.  For every request of eleven fields that has an empty field at some
position and a non-empty quantity at position 3 that is not an integer, the
error returned is the non-empty-string error for the first empty position, not
the error `4th argument must be a numeric string`, and the ledger is left
unchanged. -/
theorem init_trade_empty_before_numeric (rt : Runtime) (stub : ChaincodeStub)
    (args : List String) (hlen : args.length = 11) (i : Nat) (hi : i < 11)
    (hempty : args.getD i "" = "") (hfirst : ∀ j, j < i → args.getD j "" ≠ "")
    (_hq : args.getD 3 "" ≠ "") (_hbad : Atoi (args.getD 3 "") = none) :
    init_trade rt stub args =
        (Except.error (ordinal (i + 1) ++ " argument must be a non-empty string"), stub) ∧
      (init_trade rt stub args).1 ≠ Except.error "4th argument must be a numeric string" := by
  have h : ∀ j, j < i → ¬ (args.getD j "").length ≤ 0 := fun j hj hle =>
    hfirst j hj ((length_le_zero _).mp hle)
  have he : (args.getD i "").length ≤ 0 := (length_le_zero _).mpr hempty
  have hmain : init_trade rt stub args =
      (Except.error (ordinal (i + 1) ++ " argument must be a non-empty string"), stub) := by
    unfold init_trade
    rw [if_neg (by simp [hlen])]
    interval_cases i
    · rw [if_pos he]
      rfl
    · rw [if_neg (h 0 (by omega)), if_pos he]
      rfl
    · rw [if_neg (h 0 (by omega)), if_neg (h 1 (by omega)), if_pos he]
      rfl
    · rw [if_neg (h 0 (by omega)), if_neg (h 1 (by omega)), if_neg (h 2 (by omega)), if_pos he]
      rfl
    · rw [if_neg (h 0 (by omega)), if_neg (h 1 (by omega)), if_neg (h 2 (by omega)), if_neg (h 3 (by omega)), if_pos he]
      rfl
    · rw [if_neg (h 0 (by omega)), if_neg (h 1 (by omega)), if_neg (h 2 (by omega)), if_neg (h 3 (by omega)), if_neg (h 4 (by omega)), if_pos he]
      rfl
    · rw [if_neg (h 0 (by omega)), if_neg (h 1 (by omega)), if_neg (h 2 (by omega)), if_neg (h 3 (by omega)), if_neg (h 4 (by omega)), if_neg (h 5 (by omega)), if_pos he]
      rfl
    · rw [if_neg (h 0 (by omega)), if_neg (h 1 (by omega)), if_neg (h 2 (by omega)), if_neg (h 3 (by omega)), if_neg (h 4 (by omega)), if_neg (h 5 (by omega)), if_neg (h 6 (by omega)), if_pos he]
      rfl
    · rw [if_neg (h 0 (by omega)), if_neg (h 1 (by omega)), if_neg (h 2 (by omega)), if_neg (h 3 (by omega)), if_neg (h 4 (by omega)), if_neg (h 5 (by omega)), if_neg (h 6 (by omega)), if_neg (h 7 (by omega)), if_pos he]
      rfl
    · rw [if_neg (h 0 (by omega)), if_neg (h 1 (by omega)), if_neg (h 2 (by omega)), if_neg (h 3 (by omega)), if_neg (h 4 (by omega)), if_neg (h 5 (by omega)), if_neg (h 6 (by omega)), if_neg (h 7 (by omega)), if_neg (h 8 (by omega)), if_pos he]
      rfl
    · rw [if_neg (h 0 (by omega)), if_neg (h 1 (by omega)), if_neg (h 2 (by omega)), if_neg (h 3 (by omega)), if_neg (h 4 (by omega)), if_neg (h 5 (by omega)), if_neg (h 6 (by omega)), if_neg (h 7 (by omega)), if_neg (h 8 (by omega)), if_neg (h 9 (by omega)), if_pos he]
      rfl
  refine ⟨hmain, ?_⟩
  rw [hmain]
  intro hcontra
  have hs : ordinal (i + 1) ++ " argument must be a non-empty string" =
      "4th argument must be a numeric string" := by
    injection hcontra
  clear hmain hcontra he h hfirst hempty
  interval_cases i <;> revert hs <;> decide

theorem init_trade_empty_before_numeric_witness :
    Atoi (["a", "b", "c", "many", "e", "f", "g", "h", "i", "", "0"].getD 3 "") = none ∧
      init_trade sampleRuntime emptyStub ["a", "b", "c", "many", "e", "f", "g", "h", "i", "", "0"] =
        (Except.error "10th argument must be a non-empty string", emptyStub) :=
  ⟨by decide,
    (init_trade_empty_before_numeric sampleRuntime emptyStub
      ["a", "b", "c", "many", "e", "f", "g", "h", "i", "", "0"] (by decide) 9 (by decide)
      (by decide) (fun j hj => by interval_cases j <;> decide) (by decide) (by decide)).1⟩

/-- C23: `Query` rejects malformed requests without touching the ledger.  For
every ledger, if the function name is not `query` or the argument count is not
1, `Query` returns an error, which carries no payload, and no call of `Query`,
successful or not, changes the ledger. -/
theorem Query_rejects_malformed (stub : ChaincodeStub) (function : String)
    (args : List String) :
    ((function ≠ "query" ∨ args.length ≠ 1) →
        ∃ e, (Query stub function args).1 = Except.error e) ∧
      (Query stub function args).2 = stub := by
  unfold Query
  by_cases hf : function ≠ "query"
  · rw [if_pos hf]
    exact ⟨fun _ => ⟨_, rfl⟩, rfl⟩
  · rw [if_neg hf]
    by_cases hl : args.length ≠ 1
    · rw [if_pos hl]
      exact ⟨fun _ => ⟨_, rfl⟩, rfl⟩
    · rw [if_neg hl]
      refine ⟨fun h => ?_, ?_⟩
      · rcases h with h | h
        · exact absurd h hf
        · exact absurd h hl
      · cases stub.GetState (args.getD 0 "") <;> rfl

theorem Query_rejects_malformed_witness :
    (∃ e, (Query emptyStub "read" ["2021-01-01"]).1 = Except.error e) ∧
      (∃ e, (Query emptyStub "query" ["2021-01-01", "2021-01-02"]).1 = Except.error e) :=
  ⟨(Query_rejects_malformed emptyStub "read" ["2021-01-01"]).1 (Or.inl (by decide)),
    (Query_rejects_malformed emptyStub "query" ["2021-01-01", "2021-01-02"]).1
      (Or.inr (by decide))⟩

end Marbles
